import Mathlib

/-!
Verification development for the flight/hotel booking voice-agent demo
(`src/agent.py`).  The Python source is shallowly embedded: strings are
`List Char` (wrapped in `String` at the record interface), `datetime`
values are explicit structures, `random.*` draws are passed as explicit
parameters, asyncio's cooperative scheduling of the status-update race is
an explicit event queue, and code that can raise is `Option`-valued.
-/

/-! ## Character and string utilities (models of the Python `str` methods
used by the source: `lower()`, `upper()`, `title()`, `in` (substring),
`split(sep)`, `split()`, `replace(pat, "")`). -/

/-- Model of `str.lower` for the ASCII range (all strings the source
manipulates are ASCII). -/
def lowerChar (c : Char) : Char :=
  if 65 ≤ c.toNat ∧ c.toNat ≤ 90 then Char.ofNat (c.toNat + 32) else c

/-- Model of `str.upper` for the ASCII range. -/
def upperChar (c : Char) : Char :=
  if 97 ≤ c.toNat ∧ c.toNat ≤ 122 then Char.ofNat (c.toNat - 32) else c

def pyLower (l : List Char) : List Char := l.map lowerChar

def pyUpper (l : List Char) : List Char := l.map upperChar

def isAsciiAlpha (c : Char) : Bool :=
  (65 ≤ c.toNat && c.toNat ≤ 90) || (97 ≤ c.toNat && c.toNat ≤ 122)

/-- Helper for `pyTitle`; the flag records whether the previous character
was alphabetic (cased). -/
def pyTitleAux : Bool → List Char → List Char
  | _, [] => []
  | prevAlpha, c :: cs =>
    (if isAsciiAlpha c then (if prevAlpha then lowerChar c else upperChar c) else c)
      :: pyTitleAux (isAsciiAlpha c) cs

/-- Model of `str.title` (ASCII): uppercase each letter that follows a
non-letter, lowercase the rest. -/
def pyTitle (l : List Char) : List Char := pyTitleAux false l

/-- Model of the Python substring test `pat in s`. -/
def hasInfix (l pat : List Char) : Bool :=
  l.tails.any fun t => pat.isPrefixOf t

/-- Model of `content.split("to ")` (the only separator split the source
performs): split at each non-overlapping occurrence of `"to "`, scanning
left to right, keeping empty parts — exactly Python `str.split(sep)`. -/
def splitOnTo : List Char → List (List Char)
  | 't' :: 'o' :: ' ' :: rest => [] :: splitOnTo rest
  | c :: cs =>
    match splitOnTo cs with
    | [] => [[c]]
    | t :: ts => (c :: t) :: ts
  | [] => [[]]

/-- Python's `\s` class restricted to the characters that can occur here. -/
def isPyWs (c : Char) : Bool :=
  c = ' ' || c = '\t' || c = '\n' || c.toNat = 11 || c.toNat = 12 || c = '\r'

/-- Splits at every single whitespace character, keeping empty chunks;
the auxiliary result is (first chunk, remaining chunks). -/
def wsChunksCore : List Char → List Char × List (List Char)
  | [] => ([], [])
  | c :: cs =>
    let p := wsChunksCore cs
    if isPyWs c then ([], p.1 :: p.2) else (c :: p.1, p.2)

def wsChunks (l : List Char) : List (List Char) :=
  (wsChunksCore l).1 :: (wsChunksCore l).2

/-- Model of no-argument `str.split()`: tokens separated by whitespace
runs, leading/trailing whitespace ignored. -/
def wsWords (l : List Char) : List (List Char) :=
  (wsChunks l).filter fun t => t ≠ []

/-- Tokenisation performed by a `strptime` format whose directives are
separated by a literal space: CPython compiles a space in the format to
`\s+`, and the full input must be consumed, so a match requires no
leading/trailing whitespace and the fields are exactly the nonempty
whitespace-separated tokens. -/
def wsTokens (l : List Char) : Option (List (List Char)) :=
  let ch := wsChunks l
  if ch.head? = some [] ∨ ch.getLast? = some [] then none
  else some (ch.filter fun t => t ≠ [])

/-- Exact split at a literal separator character (CPython compiles `-` and
`/` in a `strptime` format to themselves, matching exactly one char). -/
def sepChunksCore (sep : Char) : List Char → List Char × List (List Char)
  | [] => ([], [])
  | c :: cs =>
    let p := sepChunksCore sep cs
    if c = sep then ([], p.1 :: p.2) else (c :: p.1, p.2)

def sepChunks (sep : Char) (l : List Char) : List (List Char) :=
  (sepChunksCore sep l).1 :: (sepChunksCore sep l).2

/-- Model of `str.replace(ab, "")` for a two-character pattern `ab`
(the only patterns the source replaces are "st", "nd", "rd", "th"):
delete every non-overlapping occurrence, scanning left to right. -/
def erase2 (a b : Char) : List Char → List Char
  | [] => []
  | [c] => [c]
  | c :: d :: rest =>
    if c = a ∧ d = b then erase2 a b rest else c :: erase2 a b (d :: rest)

/-! ## Calendar dates and datetimes (model of `datetime.date`/`datetime`
arithmetic used by the source; Python's `datetime + timedelta(days=n)` is
exact proleptic-Gregorian calendar arithmetic). -/

structure Date where
  year : Nat
  month : Nat
  day : Nat
deriving DecidableEq, Repr

/-- Gregorian leap-year rule, as `calendar.isleap` / `datetime` use it. -/
def isLeap (y : Nat) : Bool :=
  (y % 4 = 0 && y % 100 ≠ 0) || y % 400 = 0

def daysInMonth (y m : Nat) : Nat :=
  if m = 2 then (if isLeap y then 29 else 28)
  else if m = 4 ∨ m = 6 ∨ m = 9 ∨ m = 11 then 30
  else 31

/-- The dates representable by Python `datetime` (year 1..9999). -/
def validDate (dt : Date) : Prop :=
  1 ≤ dt.year ∧ dt.year ≤ 9999 ∧ 1 ≤ dt.month ∧ dt.month ≤ 12 ∧
    1 ≤ dt.day ∧ dt.day ≤ daysInMonth dt.year dt.month

instance (dt : Date) : Decidable (validDate dt) := by
  unfold validDate; infer_instance

/-- Calendar successor: `d + timedelta(days=1)` on a midnight datetime. -/
def nextDay (dt : Date) : Date :=
  if dt.day < daysInMonth dt.year dt.month then ⟨dt.year, dt.month, dt.day + 1⟩
  else if dt.month < 12 then ⟨dt.year, dt.month + 1, 1⟩
  else ⟨dt.year + 1, 1, 1⟩

/-- `d + timedelta(days=n)`. -/
def addDays (dt : Date) : Nat → Date
  | 0 => dt
  | n + 1 => nextDay (addDays dt n)

structure DateTime where
  date : Date
  hour : Nat
  minute : Nat
  second : Nat
  microsecond : Nat
deriving DecidableEq, Repr

/-! ## The `strptime` model used by `book_flight` (src/agent.py lines
109-134).  CPython's `_strptime` compiles each format into a regex:
`%d` is the prioritised alternation `3[01]|[12]\d|0[1-9]|[1-9]`, `%m` is
`1[0-2]|0[1-9]|[1-9]`, `%Y` is exactly four digits, `%b`/`%B` are
alternations of the (case-folded) month names, and the whole input must
be consumed.  Because every directive in the seven formats is delimited
by a literal separator (space, `-`, `/`), a full match is equivalent to
splitting at the separators and matching each token in full, which is
what the token parsers below do; the numeric alternations accept exactly
the 1-2 digit tokens (4 for `%Y`) in the stated ranges.  Finally
`datetime(year, month, day)` validates the year range and the
day-of-month, raising `ValueError` (caught: the loop tries the next
format) otherwise. -/

def digitChar : Nat → Char
  | 0 => '0' | 1 => '1' | 2 => '2' | 3 => '3' | 4 => '4'
  | 5 => '5' | 6 => '6' | 7 => '7' | 8 => '8' | _ => '9'

def digitVal (c : Char) : Nat := c.toNat - 48

def isDigitChar (c : Char) : Bool := 48 ≤ c.toNat && c.toNat ≤ 57

def tokNat (t : List Char) : Nat := t.foldl (fun a c => 10 * a + digitVal c) 0

/-- `%d`: a 1-2 digit token with value 1..31. -/
def parseDayTok (t : List Char) : Option Nat :=
  if t ≠ [] ∧ t.length ≤ 2 ∧ t.all isDigitChar ∧ 1 ≤ tokNat t ∧ tokNat t ≤ 31
  then some (tokNat t) else none

/-- `%m`: a 1-2 digit token with value 1..12. -/
def parseMonthNumTok (t : List Char) : Option Nat :=
  if t ≠ [] ∧ t.length ≤ 2 ∧ t.all isDigitChar ∧ 1 ≤ tokNat t ∧ tokNat t ≤ 12
  then some (tokNat t) else none

/-- `%Y`: exactly four digits. -/
def parseYearTok (t : List Char) : Option Nat :=
  if t.length = 4 ∧ t.all isDigitChar then some (tokNat t) else none

/-- Lowercase month abbreviations, as the C locale provides them to
`_strptime` (matching is case-insensitive; the source lowercases first). -/
def monthAbbrName : Nat → List Char
  | 1 => "jan".data
  | 2 => "feb".data
  | 3 => "mar".data
  | 4 => "apr".data
  | 5 => "may".data
  | 6 => "jun".data
  | 7 => "jul".data
  | 8 => "aug".data
  | 9 => "sep".data
  | 10 => "oct".data
  | 11 => "nov".data
  | 12 => "dec".data
  | _ => []

def monthFullName : Nat → List Char
  | 1 => "january".data
  | 2 => "february".data
  | 3 => "march".data
  | 4 => "april".data
  | 5 => "may".data
  | 6 => "june".data
  | 7 => "july".data
  | 8 => "august".data
  | 9 => "september".data
  | 10 => "october".data
  | 11 => "november".data
  | 12 => "december".data
  | _ => []

/-- `%b`: the token must be one of the twelve abbreviations (no
abbreviation is a prefix of another, so the regex alternation followed by
a literal separator is equivalent to whole-token equality). -/
def parseMonthAbbrTok (t : List Char) : Option Nat :=
  if t = "jan".data then some 1
  else if t = "feb".data then some 2
  else if t = "mar".data then some 3
  else if t = "apr".data then some 4
  else if t = "may".data then some 5
  else if t = "jun".data then some 6
  else if t = "jul".data then some 7
  else if t = "aug".data then some 8
  else if t = "sep".data then some 9
  else if t = "oct".data then some 10
  else if t = "nov".data then some 11
  else if t = "dec".data then some 12
  else none

/-- `%B`: likewise for the full month names. -/
def parseMonthFullTok (t : List Char) : Option Nat :=
  if t = "january".data then some 1
  else if t = "february".data then some 2
  else if t = "march".data then some 3
  else if t = "april".data then some 4
  else if t = "may".data then some 5
  else if t = "june".data then some 6
  else if t = "july".data then some 7
  else if t = "august".data then some 8
  else if t = "september".data then some 9
  else if t = "october".data then some 10
  else if t = "november".data then some 11
  else if t = "december".data then some 12
  else none

/-- The validation `datetime(year, month, day)` performs after a regex
match; a failure is a `ValueError`, which the source's inner `try` turns
into "try the next format". -/
def mkValidDate (y m d : Nat) : Option Date :=
  if 1 ≤ y ∧ y ≤ 9999 ∧ 1 ≤ m ∧ m ≤ 12 ∧ 1 ≤ d ∧ d ≤ daysInMonth y m
  then some ⟨y, m, d⟩ else none

/-- `datetime.strptime(s, "%d %b %Y")` (fields matched left to right,
as the compiled regex does). -/
def parse_d_b_Y (s : List Char) : Option Date :=
  match wsTokens s with
  | some [a, b, c] =>
    (parseDayTok a).bind fun d =>
    (parseMonthAbbrTok b).bind fun m =>
    (parseYearTok c).bind fun y => mkValidDate y m d
  | _ => none

/-- `datetime.strptime(s, "%b %d %Y")`. -/
def parse_b_d_Y (s : List Char) : Option Date :=
  match wsTokens s with
  | some [a, b, c] =>
    (parseMonthAbbrTok a).bind fun m =>
    (parseDayTok b).bind fun d =>
    (parseYearTok c).bind fun y => mkValidDate y m d
  | _ => none

/-- `datetime.strptime(s, "%d %B %Y")`. -/
def parse_d_B_Y (s : List Char) : Option Date :=
  match wsTokens s with
  | some [a, b, c] =>
    (parseDayTok a).bind fun d =>
    (parseMonthFullTok b).bind fun m =>
    (parseYearTok c).bind fun y => mkValidDate y m d
  | _ => none

/-- `datetime.strptime(s, "%B %d %Y")`. -/
def parse_B_d_Y (s : List Char) : Option Date :=
  match wsTokens s with
  | some [a, b, c] =>
    (parseMonthFullTok a).bind fun m =>
    (parseDayTok b).bind fun d =>
    (parseYearTok c).bind fun y => mkValidDate y m d
  | _ => none

/-- `datetime.strptime(s, "%Y-%m-%d")`. -/
def parse_Y_m_d (s : List Char) : Option Date :=
  match sepChunks '-' s with
  | [a, b, c] =>
    (parseYearTok a).bind fun y =>
    (parseMonthNumTok b).bind fun m =>
    (parseDayTok c).bind fun d => mkValidDate y m d
  | _ => none

/-- `datetime.strptime(s, "%m/%d/%Y")`. -/
def parse_m_d_Y (s : List Char) : Option Date :=
  match sepChunks '/' s with
  | [a, b, c] =>
    (parseMonthNumTok a).bind fun m =>
    (parseDayTok b).bind fun d =>
    (parseYearTok c).bind fun y => mkValidDate y m d
  | _ => none

/-- `datetime.strptime(s, "%d/%m/%Y")`. -/
def parse_d_m_Y (s : List Char) : Option Date :=
  match sepChunks '/' s with
  | [a, b, c] =>
    (parseDayTok a).bind fun d =>
    (parseMonthNumTok b).bind fun m =>
    (parseYearTok c).bind fun y => mkValidDate y m d
  | _ => none

/-- The source's format loop (lines 113-130): try the seven formats in
order, returning the first success. -/
def tryFormats (s : List Char) : Option Date :=
  (parse_d_b_Y s).orElse fun _ =>
  (parse_b_d_Y s).orElse fun _ =>
  (parse_d_B_Y s).orElse fun _ =>
  (parse_B_d_Y s).orElse fun _ =>
  (parse_Y_m_d s).orElse fun _ =>
  (parse_m_d_Y s).orElse fun _ =>
  parse_d_m_Y s

/-- Line 111: `date.lower().replace("st","").replace("nd","")
.replace("rd","").replace("th","")` (applied to the already lowercased
string, in this order). -/
def cleanDate (l : List Char) : List Char :=
  erase2 't' 'h' (erase2 'r' 'd' (erase2 'n' 'd' (erase2 's' 't' l)))

/-- Lines 99-138: the departure date `book_flight` resolves from the raw
`date` argument.  `today` is `datetime.now()` truncated to midnight;
`fallbackDays` stands for the `random.randint(1, 30)` draw used when no
keyword and no format matches.  The outer `except Exception` branch is
unreachable in this model (the inner per-format `try` already absorbs the
only raising operation), matching the Python control flow. -/
def resolveDepartureDate (today : Date) (fallbackDays : Nat) (dateChars : List Char) : Date :=
  let low := pyLower dateChars
  if hasInfix low "tomorrow".data then nextDay today
  else if hasInfix low "today".data then today
  else if hasInfix low "next week".data then addDays today 7
  else
    match tryFormats (cleanDate low) with
    | some d => d
    | none => addDays today fallbackDays

/-! ## The `book_flight` tool (src/agent.py lines 80-173).  The
`random.*` draws are passed in a `FlightRand` record; their documented
ranges (`randint` bounds, `choice` membership) appear as hypotheses where
a claim needs them. -/

structure FlightRand where
  flightNum : Nat
  fallbackDays : Nat
  depHour : Nat
  depMinute : Nat
  durHours : Nat
  price : Nat
  seatLetter : Char
  seatRow : Nat
deriving DecidableEq, Repr

def pad2 (n : Nat) : List Char := [digitChar (n / 10), digitChar (n % 10)]

def pad4 (n : Nat) : List Char :=
  [digitChar (n / 1000), digitChar (n / 100 % 10), digitChar (n / 10 % 10), digitChar (n % 10)]

/-- Capitalised full month names, as `strftime("%B")` prints them. -/
def monthCapName : Nat → List Char
  | 1 => "January".data
  | 2 => "February".data
  | 3 => "March".data
  | 4 => "April".data
  | 5 => "May".data
  | 6 => "June".data
  | 7 => "July".data
  | 8 => "August".data
  | 9 => "September".data
  | 10 => "October".data
  | 11 => "November".data
  | 12 => "December".data
  | _ => []

/-- `strftime('%B %d, %Y at %I:%M %p')` (lines 168-169): full month name,
zero-padded day, year, 12-hour clock with zero-padded hour, AM/PM. -/
def strftimeLong (dt : DateTime) : List Char :=
  let h12 := if dt.hour % 12 = 0 then 12 else dt.hour % 12
  monthCapName dt.date.month ++ ' ' :: pad2 dt.date.day ++ ", ".data ++
    (Nat.repr dt.date.year).data ++ " at ".data ++ pad2 h12 ++ ':' :: pad2 dt.minute ++
    ' ' :: (if dt.hour < 12 then "AM".data else "PM".data)

/-- `departure_time + timedelta(hours=h)` (line 145). -/
def addHours (dt : DateTime) (h : Nat) : DateTime :=
  { dt with date := addDays dt.date ((dt.hour + h) / 24), hour := (dt.hour + h) % 24 }

structure FlightRecord where
  status : String
  flight_number : String
  route : String
  date : String
  departure : String
  arrival : String
  price : String
  seat : String
  message : String
deriving DecidableEq, Repr

/-- Lines 80-173.  `now` is `datetime.now()`; the returned dict is the
`FlightRecord`.  The date-resolution chain is `resolveDepartureDate`;
`departure_time` is the resolved date with the random hour/minute
substituted by `replace` (which never changes the date component), and
`arrival_time` adds the random flight duration. -/
def book_flight (now : DateTime) (r : FlightRand) (source destination date : String) :
    FlightRecord :=
  let today : DateTime := ⟨now.date, 0, 0, 0, 0⟩
  let departure_date : Date := resolveDepartureDate today.date r.fallbackDays date.data
  let departure_time : DateTime := ⟨departure_date, r.depHour, r.depMinute, 0, 0⟩
  let arrival_time : DateTime := addHours departure_time r.durHours
  { status := "confirmed"
    flight_number := String.mk ("FL".data ++ (Nat.repr r.flightNum).data)
    route := String.mk (pyUpper source.data ++ " → ".data ++ pyUpper destination.data)
    date := date
    departure := String.mk (strftimeLong departure_time)
    arrival := String.mk (strftimeLong arrival_time)
    price := String.mk ("$".data ++ (Nat.repr r.price).data)
    seat := String.mk (r.seatLetter :: (Nat.repr r.seatRow).data)
    message := String.mk ("Flight FL".data ++ (Nat.repr r.flightNum).data ++ " from ".data ++
      source.data ++ " to ".data ++ destination.data ++ " on ".data ++ date.data ++
      " has been successfully booked!".data) }

/-! ## The knowledge-base search and its status-update race
(src/agent.py lines 33-78).  `search_knowledge_base` spawns
`_speak_status_update(2)` as a task, awaits `_perform_search` (which
sleeps), then cancels the task.  Under asyncio's single-threaded
cooperative scheduling this is two timers racing: the status task wakes
after `t` seconds, the search completes after `d` seconds, and whichever
deadline is earlier runs first (`slowFirstOnTie` resolves the
nondeterministic equal-deadline order).  Cancelling a task that is still
parked in `asyncio.sleep` makes its wake-up raise `CancelledError`
instead of running the body, which the `cancelled` flag models; the
cancel is issued at the moment the search result is available. -/

def policy_info : String :=
  "Flight Policy Info: Changes are allowed up to 24 hours before departure with a fee. Baggage allowance: 1 checked bag (23kg) and 1 cabin bag per passenger. For international flights, please arrive 2 hours before your scheduled departure."

/-- Lines 33-47 (`_perform_search`): after the simulated delay, returns
the fixed policy text prefixed by an echo of the query. -/
def perform_search (query : String) : String :=
  "Searching the knowledge base for \"" ++ query ++ "\"...\n\n" ++ policy_info

inductive SearchEvent
  | statusUpdate
  | searchDone
deriving DecidableEq, Repr

structure SearchState where
  resultVal : Option String
  statusFired : Bool
  cancelled : Bool
deriving DecidableEq, Repr

def searchStep (query : String) (s : SearchState) : SearchEvent → SearchState
  | .statusUpdate => if s.cancelled then s else { s with statusFired := true }
  | .searchDone => { s with resultVal := some (perform_search query), cancelled := true }

/-- The wake-up order of the two sleeping tasks: search duration `d`
versus status-update delay `t`. -/
def searchEvents (d t : Nat) (slowFirstOnTie : Bool) : List SearchEvent :=
  if d < t then [.searchDone, .statusUpdate]
  else if t < d then [.statusUpdate, .searchDone]
  else if slowFirstOnTie then [.statusUpdate, .searchDone]
  else [.searchDone, .statusUpdate]

/-- Lines 50-78: run the race to completion and return the final state
(`resultVal` is what the tool returns; `statusFired` records whether the
spoken status update ran). -/
def search_knowledge_base (query : String) (d t : Nat) (slowFirstOnTie : Bool) : SearchState :=
  (searchEvents d t slowFirstOnTie).foldl (searchStep query) ⟨none, false, false⟩

/-! ## Agents, chat context and the handoff (src/agent.py lines 19-30,
175-200, 348-367).  A livekit `ChatContext` is an ordered list of
role-tagged messages; `Agent.__init__(instructions=..., chat_ctx=...)`
stores both, with `NOT_GIVEN` (modelled `none`) meaning the framework
creates a fresh empty context. -/

inductive ChatRole
  | user
  | assistant
  | system
deriving DecidableEq, Repr

structure ChatMessage where
  role : ChatRole
  content : String
deriving DecidableEq, Repr

structure ChatContext where
  items : List ChatMessage
deriving DecidableEq, Repr

structure Agent where
  instructions : String
  chat_ctx : ChatContext
deriving DecidableEq, Repr

def flight_instructions : String :=
  "You are a helpful flight booking AI assistant. You can help users book flights and also transfer them to hotel booking if needed."

def hotel_instructions : String :=
  "You are a helpful hotel booking AI assistant. You can help users book hotels for their travel."

/-- `FlightBookingAgent.__init__` (lines 20-30): `chat_ctx if chat_ctx
else NOT_GIVEN` — a provided context object is passed through (a
`ChatContext` instance is truthy), otherwise the framework default is an
empty context.  Only the first line of the instruction text is kept; the
rest is prompt prose with no behavioural content. -/
def flightBookingAgent (chat_ctx : Option ChatContext) : Agent :=
  ⟨flight_instructions, match chat_ctx with | some c => c | none => ⟨[]⟩⟩

/-- `HotelBookingAgent.__init__` (lines 190-200), same shape. -/
def hotelBookingAgent (chat_ctx : Option ChatContext) : Agent :=
  ⟨hotel_instructions, match chat_ctx with | some c => c | none => ⟨[]⟩⟩

/-- Lines 175-178: `transfer_to_hotel_booking` returns
`HotelBookingAgent(chat_ctx=self.chat_ctx)` — the new agent is built on
the very context object the flight agent holds. -/
def transfer_to_hotel_booking (self : Agent) : Agent :=
  hotelBookingAgent (some self.chat_ctx)

/-! ## The context extractor (src/agent.py lines 202-255).
`extract_flight_context` folds over the chat items accumulating the
`flight_details` dict; the fold is `Option`-valued because
`parts[1].split()[0]` raises `IndexError` when the text after the first
`"to "` is empty or whitespace (nothing catches it), modelled as `none`. -/

structure FlightDetails where
  destination : Option String := none
  date : Option String := none
  confirmed : Bool := false
deriving DecidableEq, Repr

/-- The date-word list of lines 230-231, in source order. -/
def dateWords : List (List Char) :=
  ["tomorrow".data, "today".data, "next week".data, "january".data, "february".data,
   "march".data, "april".data, "may".data, "june".data, "july".data, "august".data,
   "september".data, "october".data, "november".data, "december".data]

/-- Lines 218-234: the per-user-message rules, applied to the lowercased
content.  The `_ :: p1 :: _` match is the `len(parts) > 1` guard; the
empty `wsWords` case is the uncaught `IndexError`.  The date loop with
`break` is `find?` over `dateWords`. -/
def extractUserStep (fd : FlightDetails) (content : List Char) : Option FlightDetails :=
  if hasInfix content "flight".data || hasInfix content "book".data then
    let destStep : Option FlightDetails :=
      if hasInfix content "to ".data then
        match splitOnTo content with
        | _ :: p1 :: _ =>
          match wsWords p1 with
          | [] => none
          | w :: _ => some { fd with destination := some (String.mk (pyTitle w)) }
        | _ => some fd
      else some fd
    match destStep with
    | none => none
    | some fd1 =>
      if dateWords.any (fun w => hasInfix content w) then
        match dateWords.find? (fun w => hasInfix content w) with
        | some w => some { fd1 with date := some (String.mk (pyTitle w)) }
        | none => some fd1
      else some fd1
  else some fd

/-- Lines 213-238: per-item step.  A user item is processed only when its
content is truthy (nonempty); an assistant item sets `confirmed` when it
mentions both "flight" and "booked". -/
def extract_step (fd : FlightDetails) (item : ChatMessage) : Option FlightDetails :=
  match item.role with
  | .user =>
    if item.content = "" then some fd
    else extractUserStep fd (pyLower item.content.data)
  | .assistant =>
    if hasInfix (pyLower item.content.data) "flight".data &&
       hasInfix (pyLower item.content.data) "booked".data
    then some { fd with confirmed := true }
    else some fd
  | .system => some fd

/-- The chronological scan of lines 213-238 over the whole history. -/
def extract_flight_details (items : List ChatMessage) : Option FlightDetails :=
  items.foldlM extract_step {}

/-- Specification view of a single item: the destination value this item
would store, `none` when the rule does not fire (or would raise). -/
def destValueOf (item : ChatMessage) : Option String :=
  match item.role with
  | .user =>
    if item.content = "" then none
    else
      let content := pyLower item.content.data
      if hasInfix content "flight".data || hasInfix content "book".data then
        if hasInfix content "to ".data then
          match splitOnTo content with
          | _ :: p1 :: _ =>
            match wsWords p1 with
            | [] => none
            | w :: _ => some (String.mk (pyTitle w))
          | _ => none
        else none
      else none
  | _ => none

/-- Specification view: the date value this item would store. -/
def dateValueOf (item : ChatMessage) : Option String :=
  match item.role with
  | .user =>
    if item.content = "" then none
    else
      let content := pyLower item.content.data
      if hasInfix content "flight".data || hasInfix content "book".data then
        if dateWords.any (fun w => hasInfix content w) then
          match dateWords.find? (fun w => hasInfix content w) with
          | some w => some (String.mk (pyTitle w))
          | none => none
        else none
      else none
  | _ => none

/-- Specification view: does this item set `confirmed`? -/
def confValueOf (item : ChatMessage) : Bool :=
  match item.role with
  | .assistant =>
    hasInfix (pyLower item.content.data) "flight".data &&
      hasInfix (pyLower item.content.data) "booked".data
  | _ => false

/-! ## The `book_hotel` tool (src/agent.py lines 257-322). -/

structure HotelRand where
  confNum : Nat
  priceAdd : Nat
  nights : Nat
  roomNum : Nat
  roomLetter : Char
deriving DecidableEq, Repr

structure HotelRecord where
  status : String
  hotel_name : String
  location : String
  check_in_date : String
  check_out_date : String
  guests : Nat
  room_type : String
  room_number : String
  nights : Nat
  price_per_night : String
  total_price : String
  confirmation_number : String
  message : String
deriving DecidableEq, Repr

/-- Lines 281-282: `base_price + random.randint(50, 200)` where
`base_price` is 150 for "standard" rooms and 250 otherwise. -/
def hotelPricePerNight (r : HotelRand) (room_type : String) : Nat :=
  (if pyLower room_type.data = "standard".data then 150 else 250) + r.priceAdd

/-- Lines 257-322.  `r.nights` stands for the `random.randint(1, 7)` draw
of line 285 — the stay length is never derived from the date arguments. -/
def book_hotel (r : HotelRand) (city check_in_date check_out_date : String) (guests : Nat)
    (room_type : String) : HotelRecord :=
  let hotel_name := String.mk ("Grand ".data ++ pyTitle city.data ++ " Hotel".data)
  let price_per_night := hotelPricePerNight r room_type
  let total_price := price_per_night * r.nights
  { status := "confirmed"
    hotel_name := hotel_name
    location := String.mk (pyUpper city.data)
    check_in_date := check_in_date
    check_out_date := check_out_date
    guests := guests
    room_type := String.mk (pyTitle room_type.data)
    room_number := String.mk ((Nat.repr r.roomNum).data ++ [r.roomLetter])
    nights := r.nights
    price_per_night := String.mk ("$".data ++ (Nat.repr price_per_night).data)
    total_price := String.mk ("$".data ++ (Nat.repr total_price).data)
    confirmation_number := String.mk ("HT".data ++ (Nat.repr r.confNum).data)
    message := String.mk ("Hotel ".data ++ hotel_name.data ++ " in ".data ++ city.data ++
      " has been successfully booked for ".data ++ (Nat.repr guests).data ++ " guests!".data) }

/-! ## Renderings of a calendar date in the seven recognised formats
(the quantification domain of the claim about explicit-format parsing).
The renderings are lowercase; the source lowercases its input first, so a
theorem hypothesised on `pyLower input = renderDate ...` covers every
capitalisation of the rendering. -/

inductive DateFmt
  | d_b_Y
  | b_d_Y
  | d_B_Y
  | B_d_Y
  | Y_m_d
  | m_d_Y
  | d_m_Y
deriving DecidableEq, Repr

/-- A day number without zero padding (days are 1..31). -/
def unpad2 (n : Nat) : List Char :=
  if n < 10 then [digitChar n] else pad2 n

/-- The English ordinal suffix of a day number. -/
def ordSuffix (d : Nat) : List Char :=
  if d = 11 ∨ d = 12 ∨ d = 13 then "th".data
  else if d % 10 = 1 then "st".data
  else if d % 10 = 2 then "nd".data
  else if d % 10 = 3 then "rd".data
  else "th".data

/-- The day token of a rendering: zero-padded in the numeric formats,
unpadded in the named-month formats, with an optional ordinal suffix. -/
def dayTok (sfx pad : Bool) (d : Nat) : List Char :=
  (if pad then pad2 d else unpad2 d) ++ (if sfx then ordSuffix d else [])

/-- The rendering of date `dt` in format `f`, with (`sfx = true`) or
without an ordinal suffix on the day. -/
def renderDate (f : DateFmt) (sfx : Bool) (dt : Date) : List Char :=
  match f with
  | .d_b_Y => dayTok sfx false dt.day ++ ' ' :: (monthAbbrName dt.month ++ ' ' :: pad4 dt.year)
  | .b_d_Y => monthAbbrName dt.month ++ ' ' :: (dayTok sfx false dt.day ++ ' ' :: pad4 dt.year)
  | .d_B_Y => dayTok sfx false dt.day ++ ' ' :: (monthFullName dt.month ++ ' ' :: pad4 dt.year)
  | .B_d_Y => monthFullName dt.month ++ ' ' :: (dayTok sfx false dt.day ++ ' ' :: pad4 dt.year)
  | .Y_m_d => pad4 dt.year ++ '-' :: (pad2 dt.month ++ '-' :: dayTok sfx true dt.day)
  | .m_d_Y => pad2 dt.month ++ '/' :: (dayTok sfx true dt.day ++ '/' :: pad4 dt.year)
  | .d_m_Y => dayTok sfx true dt.day ++ '/' :: (pad2 dt.month ++ '/' :: pad4 dt.year)

/-! ## Bridging lemmas -/

/-- `hasInfix` agrees with list infixhood. -/
theorem hasInfix_iff (l pat : List Char) : hasInfix l pat = true ↔ pat <:+: l := by
  unfold hasInfix
  rw [List.any_eq_true]
  constructor
  · rintro ⟨t, ht, hp⟩
    exact List.infix_iff_prefix_suffix.mpr
      ⟨t, List.isPrefixOf_iff_prefix.mp hp, (List.mem_tails t l).mp ht⟩
  · intro h
    rcases List.infix_iff_prefix_suffix.mp h with ⟨t, h2, h1⟩
    exact ⟨t, (List.mem_tails t l).mpr h1, List.isPrefixOf_iff_prefix.mpr h2⟩

/-! ## C1 and C2: the status-update race -/

/-- C1: for every query (and any timings and tie order), the tool's
return value is exactly `_perform_search(query)` — the fixed policy blob,
which contains the query — whether or not the status update fired. -/
theorem search_knowledge_base_returns_search_result (query : String) (d t : Nat)
    (slowFirstOnTie : Bool) :
    (search_knowledge_base query d t slowFirstOnTie).resultVal =
        some (perform_search query) ∧
      hasInfix (perform_search query).data query.data = true := by
  constructor
  · unfold search_knowledge_base searchEvents
    split_ifs <;> rfl
  · rw [hasInfix_iff]
    unfold perform_search
    refine ⟨"Searching the knowledge base for \"".data,
      ("\"...\n\n" ++ policy_info).data, ?_⟩
    simp [String.data_append, List.append_assoc]

/-- C2: if the search completes strictly before the status-update delay
elapses, the task is cancelled while still sleeping and the spoken status
update never runs. -/
theorem status_update_not_fired_when_search_faster (query : String) (d t : Nat)
    (slowFirstOnTie : Bool) (h : d < t) :
    (search_knowledge_base query d t slowFirstOnTie).statusFired = false := by
  unfold search_knowledge_base searchEvents
  rw [if_pos h]
  rfl

/-- Witness for C2 at concrete timings. -/
theorem status_update_not_fired_when_search_faster_witness :
    (search_knowledge_base "baggage allowance" 1 2 true).statusFired = false :=
  status_update_not_fired_when_search_faster "baggage allowance" 1 2 true (by decide)

/-! ## C3: handoff shares the chat context -/

/-- C3: the hotel agent produced by `transfer_to_hotel_booking` holds the
same chat context the flight agent held, so its visible history is the
flight agent's history at the moment of handoff, with nothing removed. -/
theorem handoff_preserves_chat_context (a : Agent) :
    (transfer_to_hotel_booking a).chat_ctx = a.chat_ctx ∧
      (transfer_to_hotel_booking a).chat_ctx.items = a.chat_ctx.items :=
  ⟨rfl, rfl⟩

/-! ## C4: date containing "tomorrow" -/

/-- C4: whenever the lowercased date string contains "tomorrow", the
departure renders the calendar date `nextDay now.date` — today plus one
day — for every source, destination, call time (the time-of-day fields of
`now` do not appear) and random draw. -/
theorem book_flight_tomorrow_departure (now : DateTime) (r : FlightRand)
    (source destination date : String)
    (h : hasInfix (pyLower date.data) "tomorrow".data = true) :
    (book_flight now r source destination date).departure =
      String.mk (strftimeLong ⟨nextDay now.date, r.depHour, r.depMinute, 0, 0⟩) := by
  have hres : resolveDepartureDate now.date r.fallbackDays date.data = nextDay now.date := by
    simp [resolveDepartureDate, h]
  show String.mk (strftimeLong ⟨resolveDepartureDate now.date r.fallbackDays date.data,
    r.depHour, r.depMinute, 0, 0⟩) = _
  rw [hres]

/-- Witness for C4: called in the afternoon with date "Tomorrow". -/
theorem book_flight_tomorrow_departure_witness :
    (book_flight ⟨⟨2025, 1, 10⟩, 13, 45, 12, 7⟩ ⟨1234, 5, 9, 30, 3, 500, 'A', 7⟩
        "NYC" "LAX" "Tomorrow").departure =
      String.mk (strftimeLong ⟨nextDay ⟨2025, 1, 10⟩, 9, 30, 0, 0⟩) :=
  book_flight_tomorrow_departure ⟨⟨2025, 1, 10⟩, 13, 45, 12, 7⟩ ⟨1234, 5, 9, 30, 3, 500, 'A', 7⟩
    "NYC" "LAX" "Tomorrow" (by decide)

/-! ## C5: unparseable dates fall back to a random near date -/

/-- C5: when the date string contains none of the keywords and matches no
format, `book_flight` still returns (the model is total: the source
catches the only raising operation) with status "confirmed", and the
departure renders `today + k` days for the random `k` drawn from 1..30. -/
theorem book_flight_unparseable_fallback (now : DateTime) (r : FlightRand)
    (source destination date : String)
    (h1 : hasInfix (pyLower date.data) "tomorrow".data = false)
    (h2 : hasInfix (pyLower date.data) "today".data = false)
    (h3 : hasInfix (pyLower date.data) "next week".data = false)
    (h4 : tryFormats (cleanDate (pyLower date.data)) = none)
    (hr1 : 1 ≤ r.fallbackDays) (hr30 : r.fallbackDays ≤ 30) :
    (book_flight now r source destination date).status = "confirmed" ∧
      ∃ k, 1 ≤ k ∧ k ≤ 30 ∧
        (book_flight now r source destination date).departure =
          String.mk (strftimeLong ⟨addDays now.date k, r.depHour, r.depMinute, 0, 0⟩) := by
  refine ⟨rfl, r.fallbackDays, hr1, hr30, ?_⟩
  have hres : resolveDepartureDate now.date r.fallbackDays date.data =
      addDays now.date r.fallbackDays := by
    simp [resolveDepartureDate, h1, h2, h3, h4]
  show String.mk (strftimeLong ⟨resolveDepartureDate now.date r.fallbackDays date.data,
    r.depHour, r.depMinute, 0, 0⟩) = _
  rw [hres]

/-- Witness for C5 at the unparseable date "banana". -/
theorem book_flight_unparseable_fallback_witness :
    (book_flight ⟨⟨2025, 1, 10⟩, 13, 45, 12, 7⟩ ⟨1234, 5, 9, 30, 3, 500, 'A', 7⟩
        "NYC" "LAX" "banana").status = "confirmed" :=
  (book_flight_unparseable_fallback ⟨⟨2025, 1, 10⟩, 13, 45, 12, 7⟩
    ⟨1234, 5, 9, 30, 3, 500, 'A', 7⟩ "NYC" "LAX" "banana"
    (by decide) (by decide) (by decide) (by decide) (by decide) (by decide)).1

/-! ## C9: the raw date string is echoed while departure is resolved -/

/-- C9: on every input the returned record's `date` field is the caller's
raw string verbatim while `departure` renders the resolved
(parsed-or-fallback) date; the concrete conjunct shows the two can name
different calendar dates — "05/03/2025" read day-first names 5 March, but
the departure is May 3 (the `%m/%d/%Y` format is tried first). -/
theorem book_flight_date_echo_departure_resolved :
    (∀ (now : DateTime) (r : FlightRand) (source destination date : String),
      (book_flight now r source destination date).date = date ∧
        (book_flight now r source destination date).departure =
          String.mk (strftimeLong ⟨resolveDepartureDate now.date r.fallbackDays date.data,
            r.depHour, r.depMinute, 0, 0⟩)) ∧
      (book_flight ⟨⟨2025, 1, 10⟩, 9, 30, 0, 0⟩ ⟨1234, 5, 10, 15, 3, 500, 'A', 7⟩
          "NYC" "LAX" "05/03/2025").date = "05/03/2025" ∧
      (book_flight ⟨⟨2025, 1, 10⟩, 9, 30, 0, 0⟩ ⟨1234, 5, 10, 15, 3, 500, 'A', 7⟩
          "NYC" "LAX" "05/03/2025").departure =
        String.mk (strftimeLong ⟨⟨2025, 5, 3⟩, 10, 15, 0, 0⟩) := by
  refine ⟨fun now r source destination date => ⟨rfl, rfl⟩, rfl, ?_⟩
  decide

/-! ## C7: extraction from "book a flight to Paris tomorrow" -/

/-- C7: on a history containing the user message "book a flight to Paris
tomorrow" (here: after the initial assistant greeting item the entrypoint
installs), the extractor returns destination "Paris" and date
"Tomorrow". -/
theorem extractor_paris_tomorrow :
    extract_flight_details
        [⟨ChatRole.assistant, "The user's name is Aankit Roy."⟩,
         ⟨ChatRole.user, "book a flight to Paris tomorrow"⟩] =
      some { destination := some "Paris", date := some "Tomorrow", confirmed := false } := by
  decide

/-! ## C10: hotel pricing -/

/-- C10: every hotel booking record satisfies
`total_price = price_per_night * nights` exactly, with the night count
drawn from 1..7 (the `randint(1, 7)` contract) and independent of the
supplied check-in/check-out dates. -/
theorem book_hotel_total_price_nights (r : HotelRand)
    (city check_in_date check_out_date room_type : String) (guests : Nat)
    (h1 : 1 ≤ r.nights) (h7 : r.nights ≤ 7) :
    (book_hotel r city check_in_date check_out_date guests room_type).total_price =
        String.mk ("$".data ++ (Nat.repr (hotelPricePerNight r room_type *
          (book_hotel r city check_in_date check_out_date guests room_type).nights)).data) ∧
      (book_hotel r city check_in_date check_out_date guests room_type).price_per_night =
        String.mk ("$".data ++ (Nat.repr (hotelPricePerNight r room_type)).data) ∧
      1 ≤ (book_hotel r city check_in_date check_out_date guests room_type).nights ∧
      (book_hotel r city check_in_date check_out_date guests room_type).nights ≤ 7 ∧
      ∀ ci₂ co₂ : String,
        (book_hotel r city ci₂ co₂ guests room_type).nights =
          (book_hotel r city check_in_date check_out_date guests room_type).nights :=
  ⟨rfl, rfl, h1, h7, fun _ _ => rfl⟩

/-- Witness for C10 at a concrete three-night draw. -/
theorem book_hotel_total_price_nights_witness :
    (book_hotel ⟨12345, 60, 3, 10, 'B'⟩ "paris" "2025-12-18" "2025-12-21" 2
        "standard").total_price =
      String.mk ("$".data ++ (Nat.repr (hotelPricePerNight ⟨12345, 60, 3, 10, 'B'⟩ "standard" *
        (book_hotel ⟨12345, 60, 3, 10, 'B'⟩ "paris" "2025-12-18" "2025-12-21" 2
          "standard").nights)).data) :=
  (book_hotel_total_price_nights ⟨12345, 60, 3, 10, 'B'⟩ "paris" "2025-12-18" "2025-12-21"
    "standard" 2 (by decide) (by decide)).1

/-! ## C8: last-match-wins in the extractor -/

/-- One extraction step, characterised by the specification views: when
the step returns (does not raise), the new destination/date are the
item's extracted values when present (overwriting whatever was
accumulated) and the accumulator's values otherwise, and `confirmed` is
monotone. -/
theorem extract_step_spec (fd fd' : FlightDetails) (it : ChatMessage)
    (h : extract_step fd it = some fd') :
    fd'.destination =
        (match destValueOf it with | some v => some v | none => fd.destination) ∧
      fd'.date = (match dateValueOf it with | some w => some w | none => fd.date) ∧
      fd'.confirmed = (confValueOf it || fd.confirmed) := by
  obtain ⟨role, content⟩ := it
  cases role
  case system =>
    simp only [extract_step] at h
    cases h
    simp [destValueOf, dateValueOf, confValueOf]
  case assistant =>
    simp only [extract_step] at h
    simp only [destValueOf, dateValueOf, confValueOf]
    cases hc : (hasInfix (pyLower content.data) "flight".data &&
        hasInfix (pyLower content.data) "booked".data) <;>
      rw [hc] at h <;> simp only [Bool.false_eq_true, if_false, if_true] at h <;>
      cases h <;> simp
  case user =>
    by_cases hemp : content = ""
    · simp only [extract_step, if_pos hemp] at h
      cases h
      simp [destValueOf, dateValueOf, confValueOf, hemp]
    · simp only [extract_step, if_neg hemp] at h
      simp only [destValueOf, dateValueOf, if_neg hemp]
      have hconf : confValueOf ⟨ChatRole.user, content⟩ = false := rfl
      rw [hconf]
      simp only [Bool.false_or]
      unfold extractUserStep at h
      cases hg : (hasInfix (pyLower content.data) "flight".data ||
          hasInfix (pyLower content.data) "book".data) <;> rw [hg] at h
      · simp only [Bool.false_eq_true, if_false] at h
        cases h
        simp
      · simp only [if_true] at h
        cases hto : hasInfix (pyLower content.data) "to ".data <;> rw [hto] at h <;>
          simp only [Bool.false_eq_true, if_false, if_true] at h
        · cases hany : dateWords.any (fun w => hasInfix (pyLower content.data) w) <;>
            rw [hany] at h <;>
            simp only [Bool.false_eq_true, if_false, if_true] at h
          · cases h; simp
          · cases hfind : dateWords.find? (fun w => hasInfix (pyLower content.data) w) <;>
              rw [hfind] at h <;> cases h <;> simp
        · cases hsp : splitOnTo (pyLower content.data) with
          | nil =>
            rw [hsp] at h
            cases hany : dateWords.any (fun w => hasInfix (pyLower content.data) w) <;>
              rw [hany] at h <;>
              simp only [Bool.false_eq_true, if_false, if_true] at h
            · cases h; simp
            · cases hfind : dateWords.find? (fun w => hasInfix (pyLower content.data) w) <;>
                rw [hfind] at h <;> cases h <;> simp
          | cons p0 tl =>
            cases tl with
            | nil =>
              rw [hsp] at h
              cases hany : dateWords.any (fun w => hasInfix (pyLower content.data) w) <;>
                rw [hany] at h <;>
                simp only [Bool.false_eq_true, if_false, if_true] at h
              · cases h; simp
              · cases hfind : dateWords.find? (fun w => hasInfix (pyLower content.data) w) <;>
                  rw [hfind] at h <;> cases h <;> simp
            | cons p1 rest =>
              rw [hsp] at h
              cases hw : wsWords p1 with
              | nil =>
                simp only [hw] at h
                all_goals exact Option.noConfusion h
              | cons w ws =>
                simp only [hw] at h
                cases hany : dateWords.any (fun x => hasInfix (pyLower content.data) x) <;>
                  simp only [hany, Bool.false_eq_true, if_false, if_true] at h
                · cases h; simp [hw, hany]
                · cases hfind : dateWords.find? (fun x => hasInfix (pyLower content.data) x) <;>
                    simp only [hfind] at h <;> cases h <;> simp [hw, hany, hfind]

/-- Folding further items none of which extracts a destination leaves the
accumulated destination unchanged. -/
theorem extract_fold_keep_dest (post : List ChatMessage) : ∀ fd fd' : FlightDetails,
    post.foldlM extract_step fd = some fd' → (∀ x ∈ post, destValueOf x = none) →
      fd'.destination = fd.destination := by
  induction post with
  | nil =>
    intro fd fd' h _
    simp only [List.foldlM_nil] at h
    cases h; rfl
  | cons x xs ih =>
    intro fd fd' h hall
    rw [List.foldlM_cons] at h
    rcases hmid : extract_step fd x with _ | mid
    · rw [hmid] at h; exact Option.noConfusion h
    · rw [hmid] at h
      simp only [Option.bind_eq_bind, Option.some_bind] at h
      have hspec := (extract_step_spec fd mid x hmid).1
      rw [hall x (by simp)] at hspec
      rw [ih mid fd' h (fun y hy => hall y (by simp [hy])), hspec]

/-- Likewise for the date field. -/
theorem extract_fold_keep_date (post : List ChatMessage) : ∀ fd fd' : FlightDetails,
    post.foldlM extract_step fd = some fd' → (∀ x ∈ post, dateValueOf x = none) →
      fd'.date = fd.date := by
  induction post with
  | nil =>
    intro fd fd' h _
    simp only [List.foldlM_nil] at h
    cases h; rfl
  | cons x xs ih =>
    intro fd fd' h hall
    rw [List.foldlM_cons] at h
    rcases hmid : extract_step fd x with _ | mid
    · rw [hmid] at h; exact Option.noConfusion h
    · rw [hmid] at h
      simp only [Option.bind_eq_bind, Option.some_bind] at h
      have hspec := (extract_step_spec fd mid x hmid).2.1
      rw [hall x (by simp)] at hspec
      rw [ih mid fd' h (fun y hy => hall y (by simp [hy])), hspec]

/-- `confirmed` is never unset by later items. -/
theorem extract_fold_conf_mono (post : List ChatMessage) : ∀ fd fd' : FlightDetails,
    post.foldlM extract_step fd = some fd' → fd.confirmed = true →
      fd'.confirmed = true := by
  induction post with
  | nil =>
    intro fd fd' h hc
    simp only [List.foldlM_nil] at h
    cases h; exact hc
  | cons x xs ih =>
    intro fd fd' h hc
    rw [List.foldlM_cons] at h
    rcases hmid : extract_step fd x with _ | mid
    · rw [hmid] at h; exact Option.noConfusion h
    · rw [hmid] at h
      simp only [Option.bind_eq_bind, Option.some_bind] at h
      have hspec := (extract_step_spec fd mid x hmid).2.2
      exact ih mid fd' h (by rw [hspec, hc, Bool.or_true])

/-- Counterexample to C8 as stated: in this history the latest (indeed
only) message producing a destination value yields "Paris", yet the
extractor produces no result at all — the earlier message "book to "
matches the destination rule with nothing after "to ", so
`parts[1].split()[0]` raises an uncaught `IndexError` before the scan
reaches the later message. -/
theorem extractor_last_match_counterexample :
    extract_flight_details
        [⟨ChatRole.user, "book to "⟩, ⟨ChatRole.user, "book a flight to paris"⟩] = none ∧
      destValueOf ⟨ChatRole.user, "book a flight to paris"⟩ = some "Paris" := by
  decide

/-- C8 (amended): provided the scan completes without the out-of-range
error, the scan is chronological and later matches overwrite earlier
extracted values: the result's destination (resp. date) is the value of
the latest message extracting one, and `confirmed` is set once any
scanned assistant message confirms. -/
theorem extractor_last_match_wins_amended (pre post : List ChatMessage) (m : ChatMessage)
    (fd : FlightDetails)
    (hx : extract_flight_details (pre ++ m :: post) = some fd) :
    (∀ v, destValueOf m = some v → (∀ x ∈ post, destValueOf x = none) →
      fd.destination = some v) ∧
      (∀ w, dateValueOf m = some w → (∀ x ∈ post, dateValueOf x = none) →
        fd.date = some w) ∧
      (confValueOf m = true → fd.confirmed = true) := by
  unfold extract_flight_details at hx
  rw [List.foldlM_append] at hx
  rcases hpre : List.foldlM extract_step {} pre with _ | fd₁
  · rw [hpre] at hx; exact Option.noConfusion hx
  · rw [hpre] at hx
    simp only [Option.bind_eq_bind, Option.some_bind, List.foldlM_cons] at hx
    rcases hm : extract_step fd₁ m with _ | fd₂
    · rw [hm] at hx; exact Option.noConfusion hx
    · rw [hm] at hx
      simp only [Option.bind_eq_bind, Option.some_bind] at hx
      have hspec := extract_step_spec fd₁ fd₂ m hm
      refine ⟨?_, ?_, ?_⟩
      · intro v hv hall
        rw [extract_fold_keep_dest post fd₂ fd hx hall, hspec.1, hv]
      · intro w hw hall
        rw [extract_fold_keep_date post fd₂ fd hx hall, hspec.2.1, hw]
      · intro hc
        exact extract_fold_conf_mono post fd₂ fd hx (by rw [hspec.2.2, hc, Bool.true_or])

/-- Witness for the amended C8: an earlier destination/date ("Rome",
"Today") is overwritten by the later message's "Paris"/"Tomorrow", and a
trailing assistant confirmation sets `confirmed`. -/
theorem extractor_last_match_wins_amended_witness :
    ({ destination := some "Paris", date := some "Tomorrow", confirmed := true } :
        FlightDetails).destination = some "Paris" :=
  (extractor_last_match_wins_amended
      [⟨ChatRole.user, "book a flight to rome today"⟩]
      [⟨ChatRole.assistant, "Your flight is booked!"⟩]
      ⟨ChatRole.user, "book a flight to paris tomorrow"⟩
      { destination := some "Paris", date := some "Tomorrow", confirmed := true }
      (by decide)).1 "Paris" (by decide) (by decide)

/-! ## C6: token-level lemmas for the `strptime` model -/

/-- Every `digitChar` output is an ASCII digit. -/
theorem digitChar_isDigit (k : Nat) : isDigitChar (digitChar k) = true := by
  rcases k with _|_|_|_|_|_|_|_|_|n
  all_goals first
  | decide
  | exact (by decide : isDigitChar '9' = true)

theorem digitVal_digitChar (k : Nat) (h : k ≤ 9) : digitVal (digitChar k) = k := by
  interval_cases k <;> decide

theorem pad2_all_digits (n : Nat) : ∀ c ∈ pad2 n, isDigitChar c = true := by
  intro c hc
  simp only [pad2, List.mem_cons, List.not_mem_nil, or_false] at hc
  rcases hc with rfl | rfl <;> exact digitChar_isDigit _

theorem pad4_all_digits (n : Nat) : ∀ c ∈ pad4 n, isDigitChar c = true := by
  intro c hc
  simp only [pad4, List.mem_cons, List.not_mem_nil, or_false] at hc
  rcases hc with rfl | rfl | rfl | rfl <;> exact digitChar_isDigit _

theorem unpad2_all_digits (n : Nat) : ∀ c ∈ unpad2 n, isDigitChar c = true := by
  intro c hc
  unfold unpad2 at hc
  split at hc
  · simp only [List.mem_singleton] at hc
    subst hc
    exact digitChar_isDigit _
  · exact pad2_all_digits n c hc

theorem tokNat_pad2 (n : Nat) (h : n ≤ 99) : tokNat (pad2 n) = n := by
  show 10 * (10 * 0 + digitVal (digitChar (n / 10))) + digitVal (digitChar (n % 10)) = n
  rw [digitVal_digitChar (n / 10) (by omega), digitVal_digitChar (n % 10) (by omega)]
  omega

theorem tokNat_pad4 (n : Nat) (h : n ≤ 9999) : tokNat (pad4 n) = n := by
  show 10 * (10 * (10 * (10 * 0 + digitVal (digitChar (n / 1000))) +
    digitVal (digitChar (n / 100 % 10))) + digitVal (digitChar (n / 10 % 10))) +
    digitVal (digitChar (n % 10)) = n
  rw [digitVal_digitChar (n / 1000) (by omega), digitVal_digitChar (n / 100 % 10) (by omega),
    digitVal_digitChar (n / 10 % 10) (by omega), digitVal_digitChar (n % 10) (by omega)]
  omega

theorem tokNat_unpad2 (n : Nat) (h : n ≤ 99) : tokNat (unpad2 n) = n := by
  unfold unpad2
  split
  · show 10 * 0 + digitVal (digitChar n) = n
    rw [digitVal_digitChar n (by omega)]
    omega
  · exact tokNat_pad2 n h

theorem parseYearTok_pad4 (n : Nat) (h : n ≤ 9999) : parseYearTok (pad4 n) = some n := by
  unfold parseYearTok
  rw [if_pos ⟨rfl, by simpa using pad4_all_digits n⟩, tokNat_pad4 n h]

theorem parseDayTok_unpad2 (d : Nat) (h1 : 1 ≤ d) (h31 : d ≤ 31) :
    parseDayTok (unpad2 d) = some d := by
  have ht := tokNat_unpad2 d (by omega)
  have hd := unpad2_all_digits d
  unfold parseDayTok
  rw [if_pos ?_, ht]
  refine ⟨?_, ?_, by simpa using hd, by omega, by omega⟩
  · unfold unpad2; split <;> simp [pad2]
  · unfold unpad2; split <;> simp [pad2]

theorem parseDayTok_pad2 (d : Nat) (h1 : 1 ≤ d) (h31 : d ≤ 31) :
    parseDayTok (pad2 d) = some d := by
  have ht := tokNat_pad2 d (by omega)
  unfold parseDayTok
  rw [if_pos ?_, ht]
  exact ⟨by simp [pad2], by simp [pad2], by simpa using pad2_all_digits d, by omega, by omega⟩

theorem parseMonthNumTok_pad2 (m : Nat) (h1 : 1 ≤ m) (h12 : m ≤ 12) :
    parseMonthNumTok (pad2 m) = some m := by
  have ht := tokNat_pad2 m (by omega)
  unfold parseMonthNumTok
  rw [if_pos ?_, ht]
  exact ⟨by simp [pad2], by simp [pad2], by simpa using pad2_all_digits m, by omega, by omega⟩

theorem parseMonthNumTok_pad2_none (d : Nat) (h : 12 < d) (h99 : d ≤ 99) :
    parseMonthNumTok (pad2 d) = none := by
  have ht := tokNat_pad2 d h99
  unfold parseMonthNumTok
  rw [if_neg]
  rw [ht]
  omega

theorem daysInMonth_le_31 (y m : Nat) : daysInMonth y m ≤ 31 := by
  unfold daysInMonth
  split_ifs <;> omega

theorem daysInMonth_ge_28 (y m : Nat) : 28 ≤ daysInMonth y m := by
  unfold daysInMonth
  split_ifs <;> omega

theorem mkValidDate_of_valid (y m d : Nat) (h : validDate ⟨y, m, d⟩) :
    mkValidDate y m d = some ⟨y, m, d⟩ := by
  unfold mkValidDate
  exact if_pos h

theorem parseMonthAbbrTok_name (m : Nat) (h1 : 1 ≤ m) (h12 : m ≤ 12) :
    parseMonthAbbrTok (monthAbbrName m) = some m := by
  interval_cases m <;> decide

theorem parseMonthFullTok_name (m : Nat) (h1 : 1 ≤ m) (h12 : m ≤ 12) :
    parseMonthFullTok (monthFullName m) = some m := by
  interval_cases m <;> decide

theorem parseDayTok_monthAbbr (m : Nat) (h1 : 1 ≤ m) (h12 : m ≤ 12) :
    parseDayTok (monthAbbrName m) = none := by
  interval_cases m <;> decide

theorem parseDayTok_monthFull (m : Nat) (h1 : 1 ≤ m) (h12 : m ≤ 12) :
    parseDayTok (monthFullName m) = none := by
  interval_cases m <;> decide

/-- The full name of "may" doubles as its abbreviation; every other full
name fails the `%b` alternation. -/
theorem parseMonthAbbrTok_monthFull (m : Nat) (h1 : 1 ≤ m) (h12 : m ≤ 12) :
    parseMonthAbbrTok (monthFullName m) = if m = 5 then some 5 else none := by
  interval_cases m <;> decide

theorem parseMonthAbbrTok_digits (t : List Char) (h : ∀ c ∈ t, isDigitChar c = true) :
    parseMonthAbbrTok t = none := by
  have key : ∀ (name : List Char) (c : Char), c ∈ name → isDigitChar c = false →
      ¬t = name := by
    intro name c hc hcd heq
    subst heq
    rw [h c hc] at hcd
    exact Bool.noConfusion hcd
  unfold parseMonthAbbrTok
  rw [if_neg (key "jan".data 'j' (by decide) (by decide)),
    if_neg (key "feb".data 'f' (by decide) (by decide)),
    if_neg (key "mar".data 'm' (by decide) (by decide)),
    if_neg (key "apr".data 'a' (by decide) (by decide)),
    if_neg (key "may".data 'm' (by decide) (by decide)),
    if_neg (key "jun".data 'j' (by decide) (by decide)),
    if_neg (key "jul".data 'j' (by decide) (by decide)),
    if_neg (key "aug".data 'a' (by decide) (by decide)),
    if_neg (key "sep".data 's' (by decide) (by decide)),
    if_neg (key "oct".data 'o' (by decide) (by decide)),
    if_neg (key "nov".data 'n' (by decide) (by decide)),
    if_neg (key "dec".data 'd' (by decide) (by decide))]

theorem parseMonthFullTok_digits (t : List Char) (h : ∀ c ∈ t, isDigitChar c = true) :
    parseMonthFullTok t = none := by
  have key : ∀ (name : List Char) (c : Char), c ∈ name → isDigitChar c = false →
      ¬t = name := by
    intro name c hc hcd heq
    subst heq
    rw [h c hc] at hcd
    exact Bool.noConfusion hcd
  unfold parseMonthFullTok
  rw [if_neg (key "january".data 'j' (by decide) (by decide)),
    if_neg (key "february".data 'f' (by decide) (by decide)),
    if_neg (key "march".data 'm' (by decide) (by decide)),
    if_neg (key "april".data 'a' (by decide) (by decide)),
    if_neg (key "may".data 'm' (by decide) (by decide)),
    if_neg (key "june".data 'j' (by decide) (by decide)),
    if_neg (key "july".data 'j' (by decide) (by decide)),
    if_neg (key "august".data 'a' (by decide) (by decide)),
    if_neg (key "september".data 's' (by decide) (by decide)),
    if_neg (key "october".data 'o' (by decide) (by decide)),
    if_neg (key "november".data 'n' (by decide) (by decide)),
    if_neg (key "december".data 'd' (by decide) (by decide))]

/-- Two characters of distinct digit-ness are distinct. -/
theorem digit_ne (c x : Char) (h : isDigitChar c = true) (hx : isDigitChar x = false) :
    c ≠ x := by
  intro he
  subst he
  rw [h] at hx
  exact Bool.noConfusion hx

theorem not_ws_of_digit (c : Char) (h : isDigitChar c = true) : isPyWs c = false := by
  have h1 : c ≠ ' ' := digit_ne c ' ' h (by decide)
  have h2 : c ≠ '\t' := digit_ne c '\t' h (by decide)
  have h3 : c ≠ '\n' := digit_ne c '\n' h (by decide)
  have h6 : c ≠ '\r' := digit_ne c '\r' h (by decide)
  have hd : 48 ≤ c.toNat ∧ c.toNat ≤ 57 := by
    unfold isDigitChar at h
    simpa using h
  have h4 : c.toNat ≠ 11 := by omega
  have h5 : c.toNat ≠ 12 := by omega
  simp [isPyWs, h1, h2, h3, h4, h5, h6]

theorem wsChunksCore_append (t r : List Char) (h : ∀ c ∈ t, isPyWs c = false) :
    wsChunksCore (t ++ r) = (t ++ (wsChunksCore r).1, (wsChunksCore r).2) := by
  induction t with
  | nil => simp
  | cons c t ih =>
    have hc : isPyWs c = false := h c (by simp)
    simp only [List.cons_append, wsChunksCore, hc, Bool.false_eq_true, if_false]
    rw [show t.append r = t ++ r from rfl, ih (fun x hx => h x (List.mem_cons_of_mem _ hx))]

theorem wsChunksCore_nows (t : List Char) (h : ∀ c ∈ t, isPyWs c = false) :
    wsChunksCore t = (t, []) := by
  have e := wsChunksCore_append t [] h
  simpa [wsChunksCore] using e

theorem wsChunksCore_cons_space (r : List Char) :
    wsChunksCore (' ' :: r) = ([], (wsChunksCore r).1 :: (wsChunksCore r).2) := by
  simp [wsChunksCore, isPyWs]

theorem wsTokens_three (t1 t2 t3 : List Char)
    (h1 : t1 ≠ []) (h2 : t2 ≠ []) (h3 : t3 ≠ [])
    (w1 : ∀ c ∈ t1, isPyWs c = false) (w2 : ∀ c ∈ t2, isPyWs c = false)
    (w3 : ∀ c ∈ t3, isPyWs c = false) :
    wsTokens (t1 ++ ' ' :: (t2 ++ ' ' :: t3)) = some [t1, t2, t3] := by
  have e1 := wsChunksCore_append t1 (' ' :: (t2 ++ ' ' :: t3)) w1
  rw [wsChunksCore_cons_space] at e1
  have e2 := wsChunksCore_append t2 (' ' :: t3) w2
  rw [wsChunksCore_cons_space] at e2
  have e3 := wsChunksCore_nows t3 w3
  unfold wsTokens wsChunks
  rw [e1, e2, e3]
  simp only [List.append_nil]
  rw [if_neg]
  · simp [List.filter, h1, h2, h3]
  · simp [h1, h3]

theorem wsTokens_single (l : List Char) (h : l ≠ []) (w : ∀ c ∈ l, isPyWs c = false) :
    wsTokens l = some [l] := by
  unfold wsTokens wsChunks
  rw [wsChunksCore_nows l w]
  rw [if_neg]
  · simp [List.filter, h]
  · simp [h]

theorem sepChunksCore_append (sep : Char) (t r : List Char) (h : sep ∉ t) :
    sepChunksCore sep (t ++ r) = (t ++ (sepChunksCore sep r).1, (sepChunksCore sep r).2) := by
  induction t with
  | nil => simp
  | cons c t ih =>
    have hc : ¬c = sep := fun he => h (he ▸ List.mem_cons_self c t)
    simp only [List.cons_append, sepChunksCore, hc, if_false]
    rw [show t.append r = t ++ r from rfl, ih (fun hx => h (List.mem_cons_of_mem _ hx))]

theorem sepChunksCore_nosep (sep : Char) (t : List Char) (h : sep ∉ t) :
    sepChunksCore sep t = (t, []) := by
  have e := sepChunksCore_append sep t [] h
  simpa [sepChunksCore] using e

theorem sepChunksCore_cons_sep (sep : Char) (r : List Char) :
    sepChunksCore sep (sep :: r) =
      ([], (sepChunksCore sep r).1 :: (sepChunksCore sep r).2) := by
  simp [sepChunksCore]

theorem sepChunks_three (sep : Char) (t1 t2 t3 : List Char)
    (h1 : sep ∉ t1) (h2 : sep ∉ t2) (h3 : sep ∉ t3) :
    sepChunks sep (t1 ++ sep :: (t2 ++ sep :: t3)) = [t1, t2, t3] := by
  have e1 := sepChunksCore_append sep t1 (sep :: (t2 ++ sep :: t3)) h1
  rw [sepChunksCore_cons_sep] at e1
  have e2 := sepChunksCore_append sep t2 (sep :: t3) h2
  rw [sepChunksCore_cons_sep] at e2
  have e3 := sepChunksCore_nosep sep t3 h3
  unfold sepChunks
  rw [e1, e2, e3]
  simp

theorem sepChunks_single (sep : Char) (l : List Char) (h : sep ∉ l) :
    sepChunks sep l = [l] := by
  unfold sepChunks
  rw [sepChunksCore_nosep sep l h]

/-! ## C6: lemmas about `erase2`/`cleanDate` on renderings -/

theorem erase2_cons (a b c : Char) (r : List Char) (h : ¬(c = a ∧ r.head? = some b)) :
    erase2 a b (c :: r) = c :: erase2 a b r := by
  cases r with
  | nil => rfl
  | cons d rest =>
    show (if c = a ∧ d = b then erase2 a b rest else c :: erase2 a b (d :: rest)) = _
    rw [if_neg]
    rintro ⟨hc, hd⟩
    exact h ⟨hc, by simp [hd]⟩

theorem erase2_append_head (a b : Char) (r : List Char) (hr : r.head? ≠ some b) :
    ∀ l : List Char, erase2 a b (l ++ r) = erase2 a b l ++ erase2 a b r
  | [] => by simp [erase2]
  | [c] => by
    rw [List.singleton_append, erase2_cons a b c r (fun h => hr h.2)]
    rfl
  | c :: d :: l' => by
    by_cases hcd : c = a ∧ d = b
    · show erase2 a b (c :: d :: (l' ++ r)) = erase2 a b (c :: d :: l') ++ erase2 a b r
      rw [show erase2 a b (c :: d :: (l' ++ r)) = erase2 a b (l' ++ r) from by
            simp only [erase2, if_pos hcd],
          show erase2 a b (c :: d :: l') = erase2 a b l' from by
            simp only [erase2, if_pos hcd]]
      exact erase2_append_head a b r hr l'
    · show erase2 a b (c :: d :: (l' ++ r)) = erase2 a b (c :: d :: l') ++ erase2 a b r
      rw [show erase2 a b (c :: d :: (l' ++ r)) = c :: erase2 a b (d :: (l' ++ r)) from by
            simp only [erase2, if_neg hcd],
          show erase2 a b (c :: d :: l') = c :: erase2 a b (d :: l') from by
            simp only [erase2, if_neg hcd]]
      have ih := erase2_append_head a b r hr (d :: l')
      rw [List.cons_append] at ih
      rw [ih]
      rfl

theorem erase2_append_notmem (a b : Char) (l r : List Char) (ha : a ∉ l) :
    erase2 a b (l ++ r) = l ++ erase2 a b r := by
  induction l with
  | nil => simp
  | cons c l' ih =>
    have hca : ¬c = a := fun he => ha (he ▸ List.mem_cons_self c l')
    rw [List.cons_append, erase2_cons a b c (l' ++ r) (fun h => hca h.1),
      ih (fun hm => ha (List.mem_cons_of_mem _ hm)), List.cons_append]

theorem erase2_self_notmem (a b : Char) (l : List Char) (ha : a ∉ l) :
    erase2 a b l = l := by
  have e := erase2_append_notmem a b l [] ha
  simpa [erase2] using e

theorem erase2_head (a b : Char) (r : List Char) (hr : r.head? ≠ some a) :
    (erase2 a b r).head? = r.head? := by
  cases r with
  | nil => rfl
  | cons c rest =>
    rw [erase2_cons a b c rest (fun h => hr (by simp [h.1]))]
    rfl

theorem cleanDate_append_digits (l r : List Char) (h : ∀ c ∈ l, isDigitChar c = true) :
    cleanDate (l ++ r) = l ++ cleanDate r := by
  have hs : 's' ∉ l := fun hm => absurd (h 's' hm) (by decide)
  have hn : 'n' ∉ l := fun hm => absurd (h 'n' hm) (by decide)
  have hrr : 'r' ∉ l := fun hm => absurd (h 'r' hm) (by decide)
  have ht : 't' ∉ l := fun hm => absurd (h 't' hm) (by decide)
  unfold cleanDate
  rw [erase2_append_notmem 's' 't' l r hs, erase2_append_notmem 'n' 'd' l _ hn,
    erase2_append_notmem 'r' 'd' l _ hrr, erase2_append_notmem 't' 'h' l _ ht]

theorem cleanDate_digits (l : List Char) (h : ∀ c ∈ l, isDigitChar c = true) :
    cleanDate l = l := by
  have e := cleanDate_append_digits l [] h
  simpa [cleanDate, erase2] using e

theorem cleanDate_cons_sep (c : Char) (r : List Char) (h : c = ' ' ∨ c = '-' ∨ c = '/') :
    cleanDate (c :: r) = c :: cleanDate r := by
  have h4 : c ≠ 's' ∧ c ≠ 'n' ∧ c ≠ 'r' ∧ c ≠ 't' := by
    rcases h with rfl | rfl | rfl <;> exact ⟨by decide, by decide, by decide, by decide⟩
  unfold cleanDate
  rw [erase2_cons 's' 't' c r (fun hh => h4.1 hh.1),
    erase2_cons 'n' 'd' c _ (fun hh => h4.2.1 hh.1),
    erase2_cons 'r' 'd' c _ (fun hh => h4.2.2.1 hh.1),
    erase2_cons 't' 'h' c _ (fun hh => h4.2.2.2 hh.1)]

theorem cleanDate_append_safehead (l r : List Char)
    (hr : ∀ c, r.head? = some c → (c = ' ' ∨ c = '-' ∨ c = '/' ∨ isDigitChar c = true)) :
    cleanDate (l ++ r) = cleanDate l ++ cleanDate r := by
  have hhead : ∀ x : Char, x ∈ (['t', 'd', 'h', 's', 'n', 'r'] : List Char) →
      r.head? ≠ some x := by
    intro x hx he
    have hx' := hr x he
    fin_cases hx <;> rcases hx' with h | h | h | h <;> exact absurd h (by decide)
  have e1 : (erase2 's' 't' r).head? = r.head? :=
    erase2_head 's' 't' r (hhead 's' (by decide))
  have e2 : (erase2 'n' 'd' (erase2 's' 't' r)).head? = r.head? := by
    rw [erase2_head 'n' 'd' _ (by rw [e1]; exact hhead 'n' (by decide)), e1]
  have e3 : (erase2 'r' 'd' (erase2 'n' 'd' (erase2 's' 't' r))).head? = r.head? := by
    rw [erase2_head 'r' 'd' _ (by rw [e2]; exact hhead 'r' (by decide)), e2]
  unfold cleanDate
  rw [erase2_append_head 's' 't' r (hhead 't' (by decide)) l,
    erase2_append_head 'n' 'd' _ (by rw [e1]; exact hhead 'd' (by decide)) _,
    erase2_append_head 'r' 'd' _ (by rw [e2]; exact hhead 'd' (by decide)) _,
    erase2_append_head 't' 'h' _ (by rw [e3]; exact hhead 'h' (by decide)) _]

theorem cleanDate_monthAbbr (m : Nat) (h1 : 1 ≤ m) (h12 : m ≤ 12) :
    cleanDate (monthAbbrName m) = monthAbbrName m := by
  interval_cases m <;> decide

/-- Except for August (whose name contains "st"), the lowercased full
month names survive the ordinal-suffix stripping. -/
theorem cleanDate_monthFull (m : Nat) (h1 : 1 ≤ m) (h12 : m ≤ 12) (h8 : m ≠ 8) :
    cleanDate (monthFullName m) = monthFullName m := by
  interval_cases m <;> first | decide | exact absurd rfl h8

theorem ordSuffix_cases (d : Nat) :
    ordSuffix d = "th".data ∨ ordSuffix d = "st".data ∨ ordSuffix d = "nd".data ∨
      ordSuffix d = "rd".data := by
  unfold ordSuffix
  split_ifs <;> simp

theorem cleanDate_ordSuffix_append (d : Nat) (r : List Char)
    (hr : ∀ c, r.head? = some c → (c = ' ' ∨ c = '-' ∨ c = '/' ∨ isDigitChar c = true)) :
    cleanDate (ordSuffix d ++ r) = cleanDate r := by
  rw [cleanDate_append_safehead (ordSuffix d) r hr]
  rcases ordSuffix_cases d with h | h | h | h <;> rw [h] <;> rfl

theorem cleanDate_dayTok (sfx pad : Bool) (d : Nat) (x : Char) (R : List Char)
    (hx : x = ' ' ∨ x = '-' ∨ x = '/') :
    cleanDate (dayTok sfx pad d ++ x :: R) =
      (if pad then pad2 d else unpad2 d) ++ x :: cleanDate R := by
  have hdig : ∀ c ∈ (if pad then pad2 d else unpad2 d), isDigitChar c = true := by
    split
    · exact pad2_all_digits d
    · exact unpad2_all_digits d
  have hxsafe : ∀ c, (x :: R).head? = some c →
      (c = ' ' ∨ c = '-' ∨ c = '/' ∨ isDigitChar c = true) := by
    intro c hc
    rw [show (x :: R).head? = some x from rfl] at hc
    cases hc
    rcases hx with rfl | rfl | rfl
    · exact Or.inl rfl
    · exact Or.inr (Or.inl rfl)
    · exact Or.inr (Or.inr (Or.inl rfl))
  unfold dayTok
  cases sfx
  · simp only [Bool.false_eq_true, if_false, List.append_nil]
    rw [cleanDate_append_digits _ _ hdig, cleanDate_cons_sep x R hx]
  · simp only [if_true]
    rw [List.append_assoc, cleanDate_append_digits _ _ hdig,
      cleanDate_ordSuffix_append d _ hxsafe, cleanDate_cons_sep x R hx]

/-- The day token at the end of an ISO rendering (no following
separator). -/
theorem cleanDate_dayTok_end (sfx pad : Bool) (d : Nat) :
    cleanDate (dayTok sfx pad d) = (if pad then pad2 d else unpad2 d) := by
  have hdig : ∀ c ∈ (if pad then pad2 d else unpad2 d), isDigitChar c = true := by
    split
    · exact pad2_all_digits d
    · exact unpad2_all_digits d
  unfold dayTok
  cases sfx
  · simp only [Bool.false_eq_true, if_false, List.append_nil]
    exact cleanDate_digits _ hdig
  · simp only [if_true]
    rw [cleanDate_append_digits _ _ hdig]
    rcases ordSuffix_cases d with h | h | h | h <;> rw [h] <;> first
    | rw [show cleanDate "th".data = ([] : List Char) from by decide, List.append_nil]
    | rw [show cleanDate "st".data = ([] : List Char) from by decide, List.append_nil]
    | rw [show cleanDate "nd".data = ([] : List Char) from by decide, List.append_nil]
    | rw [show cleanDate "rd".data = ([] : List Char) from by decide, List.append_nil]

theorem safehead_cons (x : Char) (R : List Char) (hx : x = ' ' ∨ x = '-' ∨ x = '/') :
    ∀ c, (x :: R).head? = some c → (c = ' ' ∨ c = '-' ∨ c = '/' ∨ isDigitChar c = true) := by
  intro c hc
  rw [show (x :: R).head? = some x from rfl] at hc
  cases hc
  rcases hx with rfl | rfl | rfl
  · exact Or.inl rfl
  · exact Or.inr (Or.inl rfl)
  · exact Or.inr (Or.inr (Or.inl rfl))

theorem cleanDate_render_d_b_Y (sfx : Bool) (y m d : Nat) (h1 : 1 ≤ m) (h12 : m ≤ 12) :
    cleanDate (renderDate .d_b_Y sfx ⟨y, m, d⟩) =
      unpad2 d ++ ' ' :: (monthAbbrName m ++ ' ' :: pad4 y) := by
  show cleanDate (dayTok sfx false d ++ ' ' :: (monthAbbrName m ++ ' ' :: pad4 y)) = _
  rw [cleanDate_dayTok sfx false d ' ' _ (Or.inl rfl),
    cleanDate_append_safehead (monthAbbrName m) _ (safehead_cons ' ' _ (Or.inl rfl)),
    cleanDate_monthAbbr m h1 h12, cleanDate_cons_sep ' ' _ (Or.inl rfl),
    cleanDate_digits _ (pad4_all_digits y)]
  simp

theorem cleanDate_render_b_d_Y (sfx : Bool) (y m d : Nat) (h1 : 1 ≤ m) (h12 : m ≤ 12) :
    cleanDate (renderDate .b_d_Y sfx ⟨y, m, d⟩) =
      monthAbbrName m ++ ' ' :: (unpad2 d ++ ' ' :: pad4 y) := by
  show cleanDate (monthAbbrName m ++ ' ' :: (dayTok sfx false d ++ ' ' :: pad4 y)) = _
  rw [cleanDate_append_safehead (monthAbbrName m) _ (safehead_cons ' ' _ (Or.inl rfl)),
    cleanDate_monthAbbr m h1 h12, cleanDate_cons_sep ' ' _ (Or.inl rfl),
    cleanDate_dayTok sfx false d ' ' _ (Or.inl rfl),
    cleanDate_digits _ (pad4_all_digits y)]
  simp

theorem cleanDate_render_d_B_Y (sfx : Bool) (y m d : Nat) (h1 : 1 ≤ m) (h12 : m ≤ 12)
    (h8 : m ≠ 8) :
    cleanDate (renderDate .d_B_Y sfx ⟨y, m, d⟩) =
      unpad2 d ++ ' ' :: (monthFullName m ++ ' ' :: pad4 y) := by
  show cleanDate (dayTok sfx false d ++ ' ' :: (monthFullName m ++ ' ' :: pad4 y)) = _
  rw [cleanDate_dayTok sfx false d ' ' _ (Or.inl rfl),
    cleanDate_append_safehead (monthFullName m) _ (safehead_cons ' ' _ (Or.inl rfl)),
    cleanDate_monthFull m h1 h12 h8, cleanDate_cons_sep ' ' _ (Or.inl rfl),
    cleanDate_digits _ (pad4_all_digits y)]
  simp

theorem cleanDate_render_B_d_Y (sfx : Bool) (y m d : Nat) (h1 : 1 ≤ m) (h12 : m ≤ 12)
    (h8 : m ≠ 8) :
    cleanDate (renderDate .B_d_Y sfx ⟨y, m, d⟩) =
      monthFullName m ++ ' ' :: (unpad2 d ++ ' ' :: pad4 y) := by
  show cleanDate (monthFullName m ++ ' ' :: (dayTok sfx false d ++ ' ' :: pad4 y)) = _
  rw [cleanDate_append_safehead (monthFullName m) _ (safehead_cons ' ' _ (Or.inl rfl)),
    cleanDate_monthFull m h1 h12 h8, cleanDate_cons_sep ' ' _ (Or.inl rfl),
    cleanDate_dayTok sfx false d ' ' _ (Or.inl rfl),
    cleanDate_digits _ (pad4_all_digits y)]
  simp

theorem cleanDate_render_Y_m_d (sfx : Bool) (y m d : Nat) :
    cleanDate (renderDate .Y_m_d sfx ⟨y, m, d⟩) =
      pad4 y ++ '-' :: (pad2 m ++ '-' :: pad2 d) := by
  show cleanDate (pad4 y ++ '-' :: (pad2 m ++ '-' :: dayTok sfx true d)) = _
  rw [cleanDate_append_digits _ _ (pad4_all_digits y),
    cleanDate_cons_sep '-' _ (Or.inr (Or.inl rfl)),
    cleanDate_append_digits _ _ (pad2_all_digits m),
    cleanDate_cons_sep '-' _ (Or.inr (Or.inl rfl)), cleanDate_dayTok_end sfx true d]
  simp

theorem cleanDate_render_m_d_Y (sfx : Bool) (y m d : Nat) :
    cleanDate (renderDate .m_d_Y sfx ⟨y, m, d⟩) =
      pad2 m ++ '/' :: (pad2 d ++ '/' :: pad4 y) := by
  show cleanDate (pad2 m ++ '/' :: (dayTok sfx true d ++ '/' :: pad4 y)) = _
  rw [cleanDate_append_digits _ _ (pad2_all_digits m),
    cleanDate_cons_sep '/' _ (Or.inr (Or.inr rfl)),
    cleanDate_dayTok sfx true d '/' _ (Or.inr (Or.inr rfl)),
    cleanDate_digits _ (pad4_all_digits y)]
  simp

theorem cleanDate_render_d_m_Y (sfx : Bool) (y m d : Nat) :
    cleanDate (renderDate .d_m_Y sfx ⟨y, m, d⟩) =
      pad2 d ++ '/' :: (pad2 m ++ '/' :: pad4 y) := by
  show cleanDate (dayTok sfx true d ++ '/' :: (pad2 m ++ '/' :: pad4 y)) = _
  rw [cleanDate_dayTok sfx true d '/' _ (Or.inr (Or.inr rfl)),
    cleanDate_append_digits _ _ (pad2_all_digits m),
    cleanDate_cons_sep '/' _ (Or.inr (Or.inr rfl)),
    cleanDate_digits _ (pad4_all_digits y)]
  simp

theorem option_orElse_some {α : Type} (a : α) (f : Unit → Option α) :
    (some a).orElse f = some a := rfl

theorem option_orElse_none {α : Type} (f : Unit → Option α) :
    (none : Option α).orElse f = f () := rfl

theorem unpad2_ne_nil (d : Nat) : unpad2 d ≠ [] := by
  unfold unpad2; split <;> simp [pad2]

theorem pad2_ne_nil (n : Nat) : pad2 n ≠ [] := by simp [pad2]

theorem pad4_ne_nil (n : Nat) : pad4 n ≠ [] := by simp [pad4]

theorem monthAbbr_ne_nil (m : Nat) (h1 : 1 ≤ m) (h12 : m ≤ 12) : monthAbbrName m ≠ [] := by
  interval_cases m <;> decide

theorem monthFull_ne_nil (m : Nat) (h1 : 1 ≤ m) (h12 : m ≤ 12) : monthFullName m ≠ [] := by
  interval_cases m <;> decide

theorem monthAbbr_nonws (m : Nat) (h1 : 1 ≤ m) (h12 : m ≤ 12) :
    ∀ c ∈ monthAbbrName m, isPyWs c = false := by
  interval_cases m <;> decide

theorem monthFull_nonws (m : Nat) (h1 : 1 ≤ m) (h12 : m ≤ 12) :
    ∀ c ∈ monthFullName m, isPyWs c = false := by
  interval_cases m <;> decide

theorem digits_nonws (l : List Char) (h : ∀ c ∈ l, isDigitChar c = true) :
    ∀ c ∈ l, isPyWs c = false :=
  fun c hc => not_ws_of_digit c (h c hc)

theorem not_mem_digits (x : Char) (l : List Char) (h : ∀ c ∈ l, isDigitChar c = true)
    (hx : isDigitChar x = false) : x ∉ l := by
  intro hm
  rw [h x hm] at hx
  exact Bool.noConfusion hx

theorem not_mem_append' {x : Char} {a b : List Char} (ha : x ∉ a) (hb : x ∉ b) :
    x ∉ a ++ b := by
  intro hm
  rcases List.mem_append.mp hm with h | h
  · exact ha h
  · exact hb h

theorem not_mem_cons' {x c : Char} {r : List Char} (hc : x ≠ c) (hr : x ∉ r) :
    x ∉ c :: r := by
  intro hm
  rcases List.mem_cons.mp hm with h | h
  · exact hc h
  · exact hr h

theorem forall_mem_append' {P : Char → Prop} {a b : List Char} (ha : ∀ c ∈ a, P c)
    (hb : ∀ c ∈ b, P c) : ∀ c ∈ a ++ b, P c := by
  intro c hc
  rcases List.mem_append.mp hc with h | h
  · exact ha c h
  · exact hb c h

/-- The cleaned `%d %b %Y` rendering is recognised by the first format. -/
theorem tryFormats_d_b_Y (y m d : Nat) (hv : validDate ⟨y, m, d⟩) :
    tryFormats (unpad2 d ++ ' ' :: (monthAbbrName m ++ ' ' :: pad4 y)) =
      some ⟨y, m, d⟩ := by
  obtain ⟨hy1, hy9, hm1, hm12, hd1, hdm⟩ := hv
  have hd31 : d ≤ 31 := le_trans hdm (daysInMonth_le_31 y m)
  have htok : wsTokens (unpad2 d ++ ' ' :: (monthAbbrName m ++ ' ' :: pad4 y)) =
      some [unpad2 d, monthAbbrName m, pad4 y] :=
    wsTokens_three _ _ _ (unpad2_ne_nil d) (monthAbbr_ne_nil m hm1 hm12) (pad4_ne_nil y)
      (digits_nonws _ (unpad2_all_digits d)) (monthAbbr_nonws m hm1 hm12)
      (digits_nonws _ (pad4_all_digits y))
  unfold tryFormats parse_d_b_Y
  rw [htok]
  simp only [parseDayTok_unpad2 d hd1 hd31, parseMonthAbbrTok_name m hm1 hm12,
    parseYearTok_pad4 y hy9, Option.some_bind,
    mkValidDate_of_valid y m d ⟨hy1, hy9, hm1, hm12, hd1, hdm⟩, option_orElse_some]

/-- The cleaned `%b %d %Y` rendering fails the first format (its first
token is a month name, not a day) and is recognised by the second. -/
theorem tryFormats_b_d_Y (y m d : Nat) (hv : validDate ⟨y, m, d⟩) :
    tryFormats (monthAbbrName m ++ ' ' :: (unpad2 d ++ ' ' :: pad4 y)) =
      some ⟨y, m, d⟩ := by
  obtain ⟨hy1, hy9, hm1, hm12, hd1, hdm⟩ := hv
  have hd31 : d ≤ 31 := le_trans hdm (daysInMonth_le_31 y m)
  have htok : wsTokens (monthAbbrName m ++ ' ' :: (unpad2 d ++ ' ' :: pad4 y)) =
      some [monthAbbrName m, unpad2 d, pad4 y] :=
    wsTokens_three _ _ _ (monthAbbr_ne_nil m hm1 hm12) (unpad2_ne_nil d) (pad4_ne_nil y)
      (monthAbbr_nonws m hm1 hm12) (digits_nonws _ (unpad2_all_digits d))
      (digits_nonws _ (pad4_all_digits y))
  unfold tryFormats parse_d_b_Y parse_b_d_Y
  rw [htok]
  simp only [parseDayTok_monthAbbr m hm1 hm12, parseMonthAbbrTok_name m hm1 hm12,
    parseDayTok_unpad2 d hd1 hd31, parseYearTok_pad4 y hy9, Option.some_bind,
    Option.none_bind, option_orElse_none,
    mkValidDate_of_valid y m d ⟨hy1, hy9, hm1, hm12, hd1, hdm⟩, option_orElse_some]

/-- The cleaned `%d %B %Y` rendering: for May the abbreviation equals
the full name and the first format already recognises the same date; for
the other months the first two formats fail and `%d %B %Y` matches. -/
theorem tryFormats_d_B_Y (y m d : Nat) (hv : validDate ⟨y, m, d⟩) :
    tryFormats (unpad2 d ++ ' ' :: (monthFullName m ++ ' ' :: pad4 y)) =
      some ⟨y, m, d⟩ := by
  obtain ⟨hy1, hy9, hm1, hm12, hd1, hdm⟩ := hv
  have hd31 : d ≤ 31 := le_trans hdm (daysInMonth_le_31 y m)
  have htok : wsTokens (unpad2 d ++ ' ' :: (monthFullName m ++ ' ' :: pad4 y)) =
      some [unpad2 d, monthFullName m, pad4 y] :=
    wsTokens_three _ _ _ (unpad2_ne_nil d) (monthFull_ne_nil m hm1 hm12) (pad4_ne_nil y)
      (digits_nonws _ (unpad2_all_digits d)) (monthFull_nonws m hm1 hm12)
      (digits_nonws _ (pad4_all_digits y))
  by_cases h5 : m = 5
  · subst h5
    unfold tryFormats parse_d_b_Y
    rw [htok]
    simp only [parseDayTok_unpad2 d hd1 hd31,
      show parseMonthAbbrTok (monthFullName 5) = some 5 from by decide,
      parseYearTok_pad4 y hy9, Option.some_bind,
      mkValidDate_of_valid y 5 d ⟨hy1, hy9, hm1, hm12, hd1, hdm⟩, option_orElse_some]
  · have habbrfull : parseMonthAbbrTok (monthFullName m) = none := by
      have e := parseMonthAbbrTok_monthFull m hm1 hm12
      rw [if_neg h5] at e
      exact e
    unfold tryFormats parse_d_b_Y parse_b_d_Y parse_d_B_Y
    rw [htok]
    simp only [parseDayTok_unpad2 d hd1 hd31, habbrfull,
      parseMonthAbbrTok_digits _ (unpad2_all_digits d),
      parseMonthFullTok_name m hm1 hm12, parseYearTok_pad4 y hy9, Option.some_bind,
      Option.none_bind, option_orElse_none,
      mkValidDate_of_valid y m d ⟨hy1, hy9, hm1, hm12, hd1, hdm⟩, option_orElse_some]

/-- The cleaned `%B %d %Y` rendering: again May short-circuits into the
`%b %d %Y` format with the same date; other months reach `%B %d %Y`. -/
theorem tryFormats_B_d_Y (y m d : Nat) (hv : validDate ⟨y, m, d⟩) :
    tryFormats (monthFullName m ++ ' ' :: (unpad2 d ++ ' ' :: pad4 y)) =
      some ⟨y, m, d⟩ := by
  obtain ⟨hy1, hy9, hm1, hm12, hd1, hdm⟩ := hv
  have hd31 : d ≤ 31 := le_trans hdm (daysInMonth_le_31 y m)
  have htok : wsTokens (monthFullName m ++ ' ' :: (unpad2 d ++ ' ' :: pad4 y)) =
      some [monthFullName m, unpad2 d, pad4 y] :=
    wsTokens_three _ _ _ (monthFull_ne_nil m hm1 hm12) (unpad2_ne_nil d) (pad4_ne_nil y)
      (monthFull_nonws m hm1 hm12) (digits_nonws _ (unpad2_all_digits d))
      (digits_nonws _ (pad4_all_digits y))
  by_cases h5 : m = 5
  · subst h5
    unfold tryFormats parse_d_b_Y parse_b_d_Y
    rw [htok]
    simp only [show parseDayTok (monthFullName 5) = none from by decide,
      show parseMonthAbbrTok (monthFullName 5) = some 5 from by decide,
      parseDayTok_unpad2 d hd1 hd31, parseYearTok_pad4 y hy9, Option.some_bind,
      Option.none_bind, option_orElse_none,
      mkValidDate_of_valid y 5 d ⟨hy1, hy9, hm1, hm12, hd1, hdm⟩, option_orElse_some]
  · have habbrfull : parseMonthAbbrTok (monthFullName m) = none := by
      have e := parseMonthAbbrTok_monthFull m hm1 hm12
      rw [if_neg h5] at e
      exact e
    unfold tryFormats parse_d_b_Y parse_b_d_Y parse_d_B_Y parse_B_d_Y
    rw [htok]
    simp only [parseDayTok_monthFull m hm1 hm12, habbrfull,
      parseMonthFullTok_name m hm1 hm12, parseDayTok_unpad2 d hd1 hd31,
      parseYearTok_pad4 y hy9, Option.some_bind, Option.none_bind, option_orElse_none,
      mkValidDate_of_valid y m d ⟨hy1, hy9, hm1, hm12, hd1, hdm⟩, option_orElse_some]

/-- The cleaned `%Y-%m-%d` rendering has no whitespace, so the four
space-separated formats see a single token and fail; `%Y-%m-%d`
matches. -/
theorem tryFormats_Y_m_d (y m d : Nat) (hv : validDate ⟨y, m, d⟩) :
    tryFormats (pad4 y ++ '-' :: (pad2 m ++ '-' :: pad2 d)) = some ⟨y, m, d⟩ := by
  obtain ⟨hy1, hy9, hm1, hm12, hd1, hdm⟩ := hv
  have hd31 : d ≤ 31 := le_trans hdm (daysInMonth_le_31 y m)
  have hne : pad4 y ++ '-' :: (pad2 m ++ '-' :: pad2 d) ≠ [] := by simp [pad4]
  have hnws : ∀ c ∈ pad4 y ++ '-' :: (pad2 m ++ '-' :: pad2 d), isPyWs c = false := by
    refine forall_mem_append' (digits_nonws _ (pad4_all_digits y)) ?_
    refine List.forall_mem_cons.mpr ⟨by decide, ?_⟩
    refine forall_mem_append' (digits_nonws _ (pad2_all_digits m)) ?_
    exact List.forall_mem_cons.mpr ⟨by decide, digits_nonws _ (pad2_all_digits d)⟩
  have hsingle := wsTokens_single _ hne hnws
  have hdash : sepChunks '-' (pad4 y ++ '-' :: (pad2 m ++ '-' :: pad2 d)) =
      [pad4 y, pad2 m, pad2 d] :=
    sepChunks_three '-' _ _ _ (not_mem_digits '-' _ (pad4_all_digits y) (by decide))
      (not_mem_digits '-' _ (pad2_all_digits m) (by decide))
      (not_mem_digits '-' _ (pad2_all_digits d) (by decide))
  unfold tryFormats parse_d_b_Y parse_b_d_Y parse_d_B_Y parse_B_d_Y parse_Y_m_d
  rw [hsingle, hdash]
  simp only [parseYearTok_pad4 y hy9, parseMonthNumTok_pad2 m hm1 hm12,
    parseDayTok_pad2 d hd1 hd31, Option.some_bind, option_orElse_none,
    mkValidDate_of_valid y m d ⟨hy1, hy9, hm1, hm12, hd1, hdm⟩, option_orElse_some]

/-- The cleaned `%m/%d/%Y` rendering: the space formats and the dashed
format fail, `%m/%d/%Y` matches. -/
theorem tryFormats_m_d_Y (y m d : Nat) (hv : validDate ⟨y, m, d⟩) :
    tryFormats (pad2 m ++ '/' :: (pad2 d ++ '/' :: pad4 y)) = some ⟨y, m, d⟩ := by
  obtain ⟨hy1, hy9, hm1, hm12, hd1, hdm⟩ := hv
  have hd31 : d ≤ 31 := le_trans hdm (daysInMonth_le_31 y m)
  have hne : pad2 m ++ '/' :: (pad2 d ++ '/' :: pad4 y) ≠ [] := by simp [pad2]
  have hnws : ∀ c ∈ pad2 m ++ '/' :: (pad2 d ++ '/' :: pad4 y), isPyWs c = false := by
    refine forall_mem_append' (digits_nonws _ (pad2_all_digits m)) ?_
    refine List.forall_mem_cons.mpr ⟨by decide, ?_⟩
    refine forall_mem_append' (digits_nonws _ (pad2_all_digits d)) ?_
    exact List.forall_mem_cons.mpr ⟨by decide, digits_nonws _ (pad4_all_digits y)⟩
  have hsingle := wsTokens_single _ hne hnws
  have hnodash : '-' ∉ pad2 m ++ '/' :: (pad2 d ++ '/' :: pad4 y) := by
    refine not_mem_append' (not_mem_digits '-' _ (pad2_all_digits m) (by decide)) ?_
    refine not_mem_cons' (by decide) ?_
    refine not_mem_append' (not_mem_digits '-' _ (pad2_all_digits d) (by decide)) ?_
    exact not_mem_cons' (by decide) (not_mem_digits '-' _ (pad4_all_digits y) (by decide))
  have hdashsingle := sepChunks_single '-' _ hnodash
  have hslash : sepChunks '/' (pad2 m ++ '/' :: (pad2 d ++ '/' :: pad4 y)) =
      [pad2 m, pad2 d, pad4 y] :=
    sepChunks_three '/' _ _ _ (not_mem_digits '/' _ (pad2_all_digits m) (by decide))
      (not_mem_digits '/' _ (pad2_all_digits d) (by decide))
      (not_mem_digits '/' _ (pad4_all_digits y) (by decide))
  unfold tryFormats parse_d_b_Y parse_b_d_Y parse_d_B_Y parse_B_d_Y parse_Y_m_d parse_m_d_Y
  rw [hsingle, hdashsingle, hslash]
  simp only [parseMonthNumTok_pad2 m hm1 hm12, parseDayTok_pad2 d hd1 hd31,
    parseYearTok_pad4 y hy9, Option.some_bind, option_orElse_none,
    mkValidDate_of_valid y m d ⟨hy1, hy9, hm1, hm12, hd1, hdm⟩, option_orElse_some]

/-- The cleaned `%d/%m/%Y` rendering: everything up to `%m/%d/%Y` fails
unless the day also fits as a month number.  When `d ≤ 12` the
`%m/%d/%Y` format (tried first) reads the day as the month, returning
the transposed date; only for `d > 12` does `%d/%m/%Y` get a chance and
return the exact date. -/
theorem tryFormats_d_m_Y (y m d : Nat) (hv : validDate ⟨y, m, d⟩) :
    tryFormats (pad2 d ++ '/' :: (pad2 m ++ '/' :: pad4 y)) =
      if d ≤ 12 then some ⟨y, d, m⟩ else some ⟨y, m, d⟩ := by
  obtain ⟨hy1, hy9, hm1, hm12, hd1, hdm⟩ := hv
  have hd31 : d ≤ 31 := le_trans hdm (daysInMonth_le_31 y m)
  have hmn1 : 1 ≤ m := hm1
  have hmn12 : m ≤ 12 := hm12
  have hdn1 : 1 ≤ d := hd1
  have hne : pad2 d ++ '/' :: (pad2 m ++ '/' :: pad4 y) ≠ [] := by simp [pad2]
  have hnws : ∀ c ∈ pad2 d ++ '/' :: (pad2 m ++ '/' :: pad4 y), isPyWs c = false := by
    refine forall_mem_append' (digits_nonws _ (pad2_all_digits d)) ?_
    refine List.forall_mem_cons.mpr ⟨by decide, ?_⟩
    refine forall_mem_append' (digits_nonws _ (pad2_all_digits m)) ?_
    exact List.forall_mem_cons.mpr ⟨by decide, digits_nonws _ (pad4_all_digits y)⟩
  have hsingle := wsTokens_single _ hne hnws
  have hnodash : '-' ∉ pad2 d ++ '/' :: (pad2 m ++ '/' :: pad4 y) := by
    refine not_mem_append' (not_mem_digits '-' _ (pad2_all_digits d) (by decide)) ?_
    refine not_mem_cons' (by decide) ?_
    refine not_mem_append' (not_mem_digits '-' _ (pad2_all_digits m) (by decide)) ?_
    exact not_mem_cons' (by decide) (not_mem_digits '-' _ (pad4_all_digits y) (by decide))
  have hdashsingle := sepChunks_single '-' _ hnodash
  have hslash : sepChunks '/' (pad2 d ++ '/' :: (pad2 m ++ '/' :: pad4 y)) =
      [pad2 d, pad2 m, pad4 y] :=
    sepChunks_three '/' _ _ _ (not_mem_digits '/' _ (pad2_all_digits d) (by decide))
      (not_mem_digits '/' _ (pad2_all_digits m) (by decide))
      (not_mem_digits '/' _ (pad4_all_digits y) (by decide))
  by_cases hd12 : d ≤ 12
  · rw [if_pos hd12]
    unfold tryFormats parse_d_b_Y parse_b_d_Y parse_d_B_Y parse_B_d_Y parse_Y_m_d parse_m_d_Y
    rw [hsingle, hdashsingle, hslash]
    have hm28 : m ≤ daysInMonth y d := le_trans (by omega) (daysInMonth_ge_28 y d)
    simp only [parseMonthNumTok_pad2 d hd1 hd12,
      parseDayTok_pad2 m hm1 (by omega), parseYearTok_pad4 y hy9, Option.some_bind,
      option_orElse_none,
      mkValidDate_of_valid y d m ⟨hy1, hy9, hd1, hd12, hm1, hm28⟩, option_orElse_some]
  · rw [if_neg hd12]
    unfold tryFormats parse_d_b_Y parse_b_d_Y parse_d_B_Y parse_B_d_Y parse_Y_m_d parse_m_d_Y
      parse_d_m_Y
    rw [hsingle, hdashsingle, hslash]
    simp only [parseMonthNumTok_pad2_none d (by omega) (by omega),
      parseDayTok_pad2 d hd1 hd31, parseMonthNumTok_pad2 m hm1 hm12,
      parseYearTok_pad4 y hy9, Option.some_bind, Option.none_bind, option_orElse_none,
      mkValidDate_of_valid y m d ⟨hy1, hy9, hm1, hm12, hd1, hdm⟩, option_orElse_some]

theorem dayTok_chars (sx px : Bool) (dd : Nat) :
    ∀ c ∈ dayTok sx px dd, (isDigitChar c = true ∨ c ∈ "stndrh".data) := by
  intro c hc
  unfold dayTok at hc
  rcases List.mem_append.mp hc with h | h
  · left
    revert h
    split
    · exact pad2_all_digits dd c
    · exact unpad2_all_digits dd c
  · right
    revert h
    split
    · rcases ordSuffix_cases dd with e | e | e | e <;> rw [e] <;> intro h <;> fin_cases h <;>
        decide
    · intro h
      cases h

/-- Every character of a rendering is a digit, a separator, an
ordinal-suffix letter, or a letter of the month's name. -/
theorem renderChars (f : DateFmt) (sfx : Bool) (y m d : Nat) :
    ∀ c ∈ renderDate f sfx ⟨y, m, d⟩,
      (isDigitChar c = true ∨ c = ' ' ∨ c = '-' ∨ c = '/' ∨ c ∈ "stndrh".data ∨
        c ∈ monthAbbrName m ∨ c ∈ monthFullName m) := by
  intro c hc
  cases f <;> simp only [renderDate] at hc
  case d_b_Y =>
    rcases List.mem_append.mp hc with h | h
    · rcases dayTok_chars sfx false d c h with h' | h'
      · exact Or.inl h'
      · exact Or.inr (Or.inr (Or.inr (Or.inr (Or.inl h'))))
    · rcases List.mem_cons.mp h with rfl | h
      · exact Or.inr (Or.inl rfl)
      · rcases List.mem_append.mp h with h | h
        · exact Or.inr (Or.inr (Or.inr (Or.inr (Or.inr (Or.inl h)))))
        · rcases List.mem_cons.mp h with rfl | h
          · exact Or.inr (Or.inl rfl)
          · exact Or.inl (pad4_all_digits y c h)
  case b_d_Y =>
    rcases List.mem_append.mp hc with h | h
    · exact Or.inr (Or.inr (Or.inr (Or.inr (Or.inr (Or.inl h)))))
    · rcases List.mem_cons.mp h with rfl | h
      · exact Or.inr (Or.inl rfl)
      · rcases List.mem_append.mp h with h | h
        · rcases dayTok_chars sfx false d c h with h' | h'
          · exact Or.inl h'
          · exact Or.inr (Or.inr (Or.inr (Or.inr (Or.inl h'))))
        · rcases List.mem_cons.mp h with rfl | h
          · exact Or.inr (Or.inl rfl)
          · exact Or.inl (pad4_all_digits y c h)
  case d_B_Y =>
    rcases List.mem_append.mp hc with h | h
    · rcases dayTok_chars sfx false d c h with h' | h'
      · exact Or.inl h'
      · exact Or.inr (Or.inr (Or.inr (Or.inr (Or.inl h'))))
    · rcases List.mem_cons.mp h with rfl | h
      · exact Or.inr (Or.inl rfl)
      · rcases List.mem_append.mp h with h | h
        · exact Or.inr (Or.inr (Or.inr (Or.inr (Or.inr (Or.inr h)))))
        · rcases List.mem_cons.mp h with rfl | h
          · exact Or.inr (Or.inl rfl)
          · exact Or.inl (pad4_all_digits y c h)
  case B_d_Y =>
    rcases List.mem_append.mp hc with h | h
    · exact Or.inr (Or.inr (Or.inr (Or.inr (Or.inr (Or.inr h)))))
    · rcases List.mem_cons.mp h with rfl | h
      · exact Or.inr (Or.inl rfl)
      · rcases List.mem_append.mp h with h | h
        · rcases dayTok_chars sfx false d c h with h' | h'
          · exact Or.inl h'
          · exact Or.inr (Or.inr (Or.inr (Or.inr (Or.inl h'))))
        · rcases List.mem_cons.mp h with rfl | h
          · exact Or.inr (Or.inl rfl)
          · exact Or.inl (pad4_all_digits y c h)
  case Y_m_d =>
    rcases List.mem_append.mp hc with h | h
    · exact Or.inl (pad4_all_digits y c h)
    · rcases List.mem_cons.mp h with rfl | h
      · exact Or.inr (Or.inr (Or.inl rfl))
      · rcases List.mem_append.mp h with h | h
        · exact Or.inl (pad2_all_digits m c h)
        · rcases List.mem_cons.mp h with rfl | h
          · exact Or.inr (Or.inr (Or.inl rfl))
          · rcases dayTok_chars sfx true d c h with h' | h'
            · exact Or.inl h'
            · exact Or.inr (Or.inr (Or.inr (Or.inr (Or.inl h'))))
  case m_d_Y =>
    rcases List.mem_append.mp hc with h | h
    · exact Or.inl (pad2_all_digits m c h)
    · rcases List.mem_cons.mp h with rfl | h
      · exact Or.inr (Or.inr (Or.inr (Or.inl rfl)))
      · rcases List.mem_append.mp h with h | h
        · rcases dayTok_chars sfx true d c h with h' | h'
          · exact Or.inl h'
          · exact Or.inr (Or.inr (Or.inr (Or.inr (Or.inl h'))))
        · rcases List.mem_cons.mp h with rfl | h
          · exact Or.inr (Or.inr (Or.inr (Or.inl rfl)))
          · exact Or.inl (pad4_all_digits y c h)
  case d_m_Y =>
    rcases List.mem_append.mp hc with h | h
    · rcases dayTok_chars sfx true d c h with h' | h'
      · exact Or.inl h'
      · exact Or.inr (Or.inr (Or.inr (Or.inr (Or.inl h'))))
    · rcases List.mem_cons.mp h with rfl | h
      · exact Or.inr (Or.inr (Or.inr (Or.inl rfl)))
      · rcases List.mem_append.mp h with h | h
        · exact Or.inl (pad2_all_digits m c h)
        · rcases List.mem_cons.mp h with rfl | h
          · exact Or.inr (Or.inr (Or.inr (Or.inl rfl)))
          · exact Or.inl (pad4_all_digits y c h)

theorem map_id_of_mem {f : Char → Char} {l : List Char} (h : ∀ c ∈ l, f c = c) :
    l.map f = l := by
  induction l with
  | nil => rfl
  | cons c l ih =>
    rw [List.map_cons, h c (by simp), ih (fun x hx => h x (by simp [hx]))]

theorem lowerChar_digit (c : Char) (h : isDigitChar c = true) : lowerChar c = c := by
  have hd : 48 ≤ c.toNat ∧ c.toNat ≤ 57 := by
    unfold isDigitChar at h
    simpa using h
  unfold lowerChar
  rw [if_neg]
  omega

theorem monthAbbr_lower (m : Nat) (h1 : 1 ≤ m) (h12 : m ≤ 12) :
    ∀ c ∈ monthAbbrName m, lowerChar c = c := by
  interval_cases m <;> decide

theorem monthFull_lower (m : Nat) (h1 : 1 ≤ m) (h12 : m ≤ 12) :
    ∀ c ∈ monthFullName m, lowerChar c = c := by
  interval_cases m <;> decide

/-- Renderings are already lowercase, so the `lower()` the source
applies leaves them unchanged. -/
theorem render_pyLower (f : DateFmt) (sfx : Bool) (y m d : Nat) (h1 : 1 ≤ m) (h12 : m ≤ 12) :
    pyLower (renderDate f sfx ⟨y, m, d⟩) = renderDate f sfx ⟨y, m, d⟩ := by
  unfold pyLower
  refine map_id_of_mem ?_
  intro c hc
  rcases renderChars f sfx y m d c hc with h | h | h | h | h | h | h
  · exact lowerChar_digit c h
  · subst h; decide
  · subst h; decide
  · subst h; decide
  · fin_cases h <;> decide
  · exact monthAbbr_lower m h1 h12 c h
  · exact monthFull_lower m h1 h12 c h

theorem render_no_tomorrow (f : DateFmt) (sfx : Bool) (y m d : Nat)
    (h1 : 1 ≤ m) (h12 : m ≤ 12) :
    hasInfix (renderDate f sfx ⟨y, m, d⟩) "tomorrow".data = false := by
  cases hb : hasInfix (renderDate f sfx ⟨y, m, d⟩) "tomorrow".data
  · rfl
  · exfalso
    have hsub := List.IsInfix.subset ((hasInfix_iff _ _).mp hb)
    have hw : 'w' ∈ renderDate f sfx ⟨y, m, d⟩ := hsub (by decide)
    rcases renderChars f sfx y m d 'w' hw with h | h | h | h | h | h | h
    · exact absurd h (by decide)
    · exact absurd h (by decide)
    · exact absurd h (by decide)
    · exact absurd h (by decide)
    · exact absurd h (by decide)
    · revert h; interval_cases m <;> decide
    · revert h; interval_cases m <;> decide

theorem render_no_nextweek (f : DateFmt) (sfx : Bool) (y m d : Nat)
    (h1 : 1 ≤ m) (h12 : m ≤ 12) :
    hasInfix (renderDate f sfx ⟨y, m, d⟩) "next week".data = false := by
  cases hb : hasInfix (renderDate f sfx ⟨y, m, d⟩) "next week".data
  · rfl
  · exfalso
    have hsub := List.IsInfix.subset ((hasInfix_iff _ _).mp hb)
    have hw : 'x' ∈ renderDate f sfx ⟨y, m, d⟩ := hsub (by decide)
    rcases renderChars f sfx y m d 'x' hw with h | h | h | h | h | h | h
    · exact absurd h (by decide)
    · exact absurd h (by decide)
    · exact absurd h (by decide)
    · exact absurd h (by decide)
    · exact absurd h (by decide)
    · revert h; interval_cases m <;> decide
    · revert h; interval_cases m <;> decide

/-- No month name contains both an 'o' and a 'y', and neither letter can
come from the digits, separators or suffix letters, so no rendering
contains "today". -/
theorem render_no_today (f : DateFmt) (sfx : Bool) (y m d : Nat)
    (h1 : 1 ≤ m) (h12 : m ≤ 12) :
    hasInfix (renderDate f sfx ⟨y, m, d⟩) "today".data = false := by
  cases hb : hasInfix (renderDate f sfx ⟨y, m, d⟩) "today".data
  · rfl
  · exfalso
    have hsub := List.IsInfix.subset ((hasInfix_iff _ _).mp hb)
    have hoM : 'o' ∈ monthAbbrName m ∨ 'o' ∈ monthFullName m := by
      have ho : 'o' ∈ renderDate f sfx ⟨y, m, d⟩ := hsub (by decide)
      rcases renderChars f sfx y m d 'o' ho with h | h | h | h | h | h | h
      · exact absurd h (by decide)
      · exact absurd h (by decide)
      · exact absurd h (by decide)
      · exact absurd h (by decide)
      · exact absurd h (by decide)
      · exact Or.inl h
      · exact Or.inr h
    have hyM : 'y' ∈ monthAbbrName m ∨ 'y' ∈ monthFullName m := by
      have hy : 'y' ∈ renderDate f sfx ⟨y, m, d⟩ := hsub (by decide)
      rcases renderChars f sfx y m d 'y' hy with h | h | h | h | h | h | h
      · exact absurd h (by decide)
      · exact absurd h (by decide)
      · exact absurd h (by decide)
      · exact absurd h (by decide)
      · exact absurd h (by decide)
      · exact Or.inl h
      · exact Or.inr h
    revert hoM hyM
    interval_cases m <;> decide

/-- The date-resolution chain on a (lowercased) rendering: no keyword
fires, cleaning strips at most the ordinal suffix, and the format loop
returns the rendered date — provided the month is not a full-name
August (whose name the suffix-stripping mangles) and a day-first slash
rendering does not collide with the month-first format tried earlier. -/
theorem resolveDepartureDate_render (today : Date) (fb : Nat) (y m d : Nat) (f : DateFmt)
    (sfx : Bool) (hv : validDate ⟨y, m, d⟩)
    (h8 : (f = DateFmt.d_B_Y ∨ f = DateFmt.B_d_Y) → m ≠ 8)
    (hdm : f = DateFmt.d_m_Y → d ≤ 12 → d = m) :
    resolveDepartureDate today fb (renderDate f sfx ⟨y, m, d⟩) = ⟨y, m, d⟩ := by
  have hm1 : 1 ≤ m := hv.2.2.1
  have hm12 : m ≤ 12 := hv.2.2.2.1
  simp only [resolveDepartureDate]
  rw [render_pyLower f sfx y m d hm1 hm12, render_no_tomorrow f sfx y m d hm1 hm12,
    render_no_today f sfx y m d hm1 hm12, render_no_nextweek f sfx y m d hm1 hm12]
  simp only [Bool.false_eq_true, if_false]
  cases f
  case d_b_Y =>
    rw [cleanDate_render_d_b_Y sfx y m d hm1 hm12, tryFormats_d_b_Y y m d hv]
  case b_d_Y =>
    rw [cleanDate_render_b_d_Y sfx y m d hm1 hm12, tryFormats_b_d_Y y m d hv]
  case d_B_Y =>
    rw [cleanDate_render_d_B_Y sfx y m d hm1 hm12 (h8 (Or.inl rfl)),
      tryFormats_d_B_Y y m d hv]
  case B_d_Y =>
    rw [cleanDate_render_B_d_Y sfx y m d hm1 hm12 (h8 (Or.inr rfl)),
      tryFormats_B_d_Y y m d hv]
  case Y_m_d =>
    rw [cleanDate_render_Y_m_d sfx y m d, tryFormats_Y_m_d y m d hv]
  case m_d_Y =>
    rw [cleanDate_render_m_d_Y sfx y m d, tryFormats_m_d_Y y m d hv]
  case d_m_Y =>
    rw [cleanDate_render_d_m_Y sfx y m d, tryFormats_d_m_Y y m d hv]
    by_cases hd12 : d ≤ 12
    · rw [if_pos hd12, hdm rfl hd12]
    · rw [if_neg hd12]

/-- Counterexample to C6 as stated: the valid date 21 August 2025
rendered in the listed named-month format `%B %d %Y` is "august 21
2025", but the suffix-stripping turns "august" into "augu", no format
matches, and the departure is the random fallback date — not 21 August.
Likewise the valid date 5 March 2025 rendered in the listed `%d/%m/%Y`
format is "05/03/2025", which the earlier `%m/%d/%Y` format captures as
May 3. -/
theorem book_flight_format_parsing_counterexample :
    renderDate DateFmt.B_d_Y false ⟨2025, 8, 21⟩ = "august 21 2025".data ∧
      validDate ⟨2025, 8, 21⟩ ∧
      tryFormats (cleanDate "august 21 2025".data) = none ∧
      resolveDepartureDate ⟨2025, 1, 10⟩ 5 "august 21 2025".data =
        addDays ⟨2025, 1, 10⟩ 5 ∧
      addDays ⟨2025, 1, 10⟩ 5 ≠ ⟨2025, 8, 21⟩ ∧
      renderDate DateFmt.d_m_Y false ⟨2025, 3, 5⟩ = "05/03/2025".data ∧
      validDate ⟨2025, 3, 5⟩ ∧
      resolveDepartureDate ⟨2025, 1, 10⟩ 5 "05/03/2025".data = ⟨2025, 5, 3⟩ ∧
      (⟨2025, 5, 3⟩ : Date) ≠ ⟨2025, 3, 5⟩ := by
  decide

/-- C6 (amended): for every valid calendar date and every rendering of
it in the seven formats (any capitalisation — the hypothesis constrains
the lowercased input — with or without an ordinal suffix on the day),
except full-name August renderings (mangled by suffix-stripping) and
day-first slash renderings whose day also fits as a month and differs
from it (captured transposed by the month-first format), the parsing
recognises the string and the returned departure carries that exact
calendar date rather than the random fallback. -/
theorem book_flight_format_parsing_amended (now : DateTime) (r : FlightRand)
    (source destination dateStr : String) (y m d : Nat) (f : DateFmt) (sfx : Bool)
    (hv : validDate ⟨y, m, d⟩)
    (hrender : pyLower dateStr.data = renderDate f sfx ⟨y, m, d⟩)
    (h8 : (f = DateFmt.d_B_Y ∨ f = DateFmt.B_d_Y) → m ≠ 8)
    (hdm : f = DateFmt.d_m_Y → d ≤ 12 → d = m) :
    resolveDepartureDate now.date r.fallbackDays dateStr.data = ⟨y, m, d⟩ ∧
      (book_flight now r source destination dateStr).departure =
        String.mk (strftimeLong ⟨⟨y, m, d⟩, r.depHour, r.depMinute, 0, 0⟩) := by
  have hres : resolveDepartureDate now.date r.fallbackDays dateStr.data = ⟨y, m, d⟩ := by
    have e : resolveDepartureDate now.date r.fallbackDays dateStr.data =
        resolveDepartureDate now.date r.fallbackDays (renderDate f sfx ⟨y, m, d⟩) := by
      simp only [resolveDepartureDate]
      rw [hrender, render_pyLower f sfx y m d hv.2.2.1 hv.2.2.2.1]
    rw [e]
    exact resolveDepartureDate_render now.date r.fallbackDays y m d f sfx hv h8 hdm
  refine ⟨hres, ?_⟩
  show String.mk (strftimeLong ⟨resolveDepartureDate now.date r.fallbackDays dateStr.data,
    r.depHour, r.depMinute, 0, 0⟩) = _
  rw [hres]

/-- Witness for the amended C6 at the rendering "18 Dec 2025" of
18 December 2025 in the `%d %b %Y` format. -/
theorem book_flight_format_parsing_amended_witness :
    resolveDepartureDate (⟨⟨2025, 1, 10⟩, 13, 45, 0, 0⟩ : DateTime).date
        (⟨1234, 5, 9, 30, 3, 500, 'A', 7⟩ : FlightRand).fallbackDays "18 Dec 2025".data =
      ⟨2025, 12, 18⟩ :=
  (book_flight_format_parsing_amended ⟨⟨2025, 1, 10⟩, 13, 45, 0, 0⟩
    ⟨1234, 5, 9, 30, 3, 500, 'A', 7⟩ "NYC" "LAX" "18 Dec 2025" 2025 12 18 DateFmt.d_b_Y false
    (by decide) (by decide) (by decide) (by decide)).1
